import Mathlib

/-!
# Verification of the tanglism web chart alignment / staleness / draw-order engine

Shallow embedding of the JavaScript sources under
`tanglism-web/static/js/` (stroke, segment, subtrend, center, kline
modules) and of the websocket draw dispatcher (`tanglism-draw.js`,
provided as `src/unnamed/part_002`).

Modelling conventions:
* Timestamps are strings (`YYYY-MM-DD HH:MM:SS`) in the source, compared
  only with `===` inside the matchers and ordered chronologically by the
  data invariants.  They are embedded as `Nat` (chronological order =
  numeric order, `===` = `=`).
* Prices are parsed floats in the source; no claim depends on price
  arithmetic, so they are embedded as `Int`.
* A JavaScript record obtains the `start_id` / `end_id` properties by
  assignment inside the matcher (`sk.start_id = ki`); `hasOwnProperty`
  tests presence.  This is embedded as `Option Nat` fields (`none` =
  property absent, `some ki` = property present with value `ki`).
* The module-level mutable arrays (`_data`) and flags (`_outdate`) are
  embedded as explicit state records threaded through the functions.
* The JS locals `var sk = _data[si]; var k = kdata[ki];` are inlined as
  `recs.get ⟨si, _⟩` / `kdata.get ⟨ki, _⟩` at their use sites.
-/

/-- One OHLC candle, as produced by `kline.data` (`tanglism-kline.js`):
`{ts, open, close, high, low}`.  `open` is a Lean keyword, hence the
suffixed price field names. -/
structure Candle where
  ts : Nat
  open_px : Int := 0
  close_px : Int := 0
  high_px : Int := 0
  low_px : Int := 0
deriving Repr, DecidableEq

/-- A parting extremum point as delivered by the server for strokes and
segments: `{extremum_ts, extremum_price}`. -/
structure StrokePt where
  extremum_ts : Nat
  extremum_price : Int := 0
deriving Repr, DecidableEq

/-- One stroke record held in the stroke module's `_data` array
(`tanglism-stroke.js`): `{start_pt, end_pt}` plus the `start_id` /
`end_id` properties assigned by the matcher inside `draw`. -/
structure StrokeRec where
  start_pt : StrokePt
  end_pt : StrokePt
  start_id : Option Nat := none
  end_id : Option Nat := none
deriving Repr, DecidableEq

/-- One segment record held by `tanglism-segment.js`; same JSON shape as a
stroke record (`{start_pt, end_pt}` plus matcher annotations). -/
structure SegmentRec where
  start_pt : StrokePt
  end_pt : StrokePt
  start_id : Option Nat := none
  end_id : Option Nat := none
deriving Repr, DecidableEq

/-- One sub-trend record held by `tanglism-subtrend.js`:
`{start_ts, start_price, end_ts, end_price, level}` plus matcher
annotations. -/
structure SubtrendRec where
  start_ts : Nat
  end_ts : Nat
  start_price : Int := 0
  end_price : Int := 0
  level : Nat := 1
  start_id : Option Nat := none
  end_id : Option Nat := none
deriving Repr, DecidableEq

/-- One center record held by `tanglism-center.js`:
`{start_ts, start_price, end_ts, end_price, shared_low, shared_high, low,
high, upward}` plus matcher annotations. -/
structure CenterRec where
  start_ts : Nat
  end_ts : Nat
  start_price : Int := 0
  end_price : Int := 0
  shared_low : Int := 0
  shared_high : Int := 0
  low : Int := 0
  high : Int := 0
  upward : Bool := true
  start_id : Option Nat := none
  end_id : Option Nat := none
deriving Repr, DecidableEq

/-! ## The two-cursor alignment matchers

Each overlay module's `draw` function contains a `while` loop that walks a
candle cursor `ki` and an overlay cursor (`si` resp. `ci`) forward and
writes `start_id` / `end_id` onto the overlay records.  The stroke and
segment modules use one variant (the start branch advances `ki`); the
sub-trend and center modules use another (a `start_match` flag, `ki` held
on both matching branches). -/

/-- The matcher loop of `stroke.draw` (`tanglism-stroke.js` lines 59-76):

```js
while (si < _data.length && ki < kdata.length) {
  var sk = _data[si]; var k = kdata[ki];
  if (sk.start_pt.extremum_ts === k.ts) { sk.start_id = ki; ki++; }
  else if (sk.end_pt.extremum_ts === k.ts) { sk.end_id = ki; si++; }
  else { ki++; }
}
```

Returns the mutated `_data` array. -/
def strokeScan (kdata : List Candle) (recs : List StrokeRec) (si ki : Nat) :
    List StrokeRec :=
  if h : si < recs.length ∧ ki < kdata.length then
    if (recs.get ⟨si, h.1⟩).start_pt.extremum_ts = (kdata.get ⟨ki, h.2⟩).ts then
      strokeScan kdata
        (recs.set si { recs.get ⟨si, h.1⟩ with start_id := some ki }) si (ki + 1)
    else if (recs.get ⟨si, h.1⟩).end_pt.extremum_ts = (kdata.get ⟨ki, h.2⟩).ts then
      strokeScan kdata
        (recs.set si { recs.get ⟨si, h.1⟩ with end_id := some ki }) (si + 1) ki
    else
      strokeScan kdata recs si (ki + 1)
  else
    recs
termination_by (recs.length - si, kdata.length - ki)
decreasing_by
  · simp only [List.length_set]
    exact Prod.Lex.right _ (by omega)
  · simp only [List.length_set]
    exact Prod.Lex.left _ _ (by omega)
  · exact Prod.Lex.right _ (by omega)

/-- The matcher loop of `segment.draw` (`tanglism-segment.js` lines
110-127); structurally identical to the stroke variant. -/
def segmentScan (kdata : List Candle) (recs : List SegmentRec) (si ki : Nat) :
    List SegmentRec :=
  if h : si < recs.length ∧ ki < kdata.length then
    if (recs.get ⟨si, h.1⟩).start_pt.extremum_ts = (kdata.get ⟨ki, h.2⟩).ts then
      segmentScan kdata
        (recs.set si { recs.get ⟨si, h.1⟩ with start_id := some ki }) si (ki + 1)
    else if (recs.get ⟨si, h.1⟩).end_pt.extremum_ts = (kdata.get ⟨ki, h.2⟩).ts then
      segmentScan kdata
        (recs.set si { recs.get ⟨si, h.1⟩ with end_id := some ki }) (si + 1) ki
    else
      segmentScan kdata recs si (ki + 1)
  else
    recs
termination_by (recs.length - si, kdata.length - ki)
decreasing_by
  · simp only [List.length_set]
    exact Prod.Lex.right _ (by omega)
  · simp only [List.length_set]
    exact Prod.Lex.left _ _ (by omega)
  · exact Prod.Lex.right _ (by omega)

/-- The matcher loop of `subtrend.draw` (`tanglism-subtrend.js` lines
109-127):

```js
while (si < _data.length && ki < kdata.length) {
  var st = _data[si]; var k = kdata[ki];
  if (!start_match && st.start_ts === k.ts) { st.start_id = ki; start_match = true; }
  else if (st.end_ts === k.ts) { st.end_id = ki; si++; start_match = false; }
  else { ki++; }
}
```

Note that neither matching branch advances `ki`. -/
def subtrendScan (kdata : List Candle) (recs : List SubtrendRec)
    (si ki : Nat) (start_match : Bool) : List SubtrendRec :=
  if h : si < recs.length ∧ ki < kdata.length then
    if start_match = false ∧ (recs.get ⟨si, h.1⟩).start_ts = (kdata.get ⟨ki, h.2⟩).ts then
      subtrendScan kdata
        (recs.set si { recs.get ⟨si, h.1⟩ with start_id := some ki }) si ki true
    else if (recs.get ⟨si, h.1⟩).end_ts = (kdata.get ⟨ki, h.2⟩).ts then
      subtrendScan kdata
        (recs.set si { recs.get ⟨si, h.1⟩ with end_id := some ki }) (si + 1) ki false
    else
      subtrendScan kdata recs si (ki + 1) start_match
  else
    recs
termination_by (recs.length - si, kdata.length - ki, cond start_match 0 1)
decreasing_by
  · simp only [List.length_set]
    rename_i hcond
    exact Prod.Lex.right _ (Prod.Lex.right _ (by simp [hcond.1]))
  · simp only [List.length_set]
    exact Prod.Lex.left _ _ (by omega)
  · exact Prod.Lex.right _ (Prod.Lex.left _ _ (by omega))

/-- The matcher loop of `center.draw` (`tanglism-center.js` lines
114-132); structurally identical to the sub-trend variant (overlay cursor
named `ci` in the source):

```js
while (ci < _data.length && ki < kdata.length) {
  var cr = _data[ci]; var k = kdata[ki];
  if (!start_match && cr.start_ts === k.ts) { cr.start_id = ki; start_match = true; }
  else if (cr.end_ts === k.ts) { cr.end_id = ki; ci++; start_match = false; }
  else { ki++; }
}
``` -/
def centerScan (kdata : List Candle) (recs : List CenterRec)
    (ci ki : Nat) (start_match : Bool) : List CenterRec :=
  if h : ci < recs.length ∧ ki < kdata.length then
    if start_match = false ∧ (recs.get ⟨ci, h.1⟩).start_ts = (kdata.get ⟨ki, h.2⟩).ts then
      centerScan kdata
        (recs.set ci { recs.get ⟨ci, h.1⟩ with start_id := some ki }) ci ki true
    else if (recs.get ⟨ci, h.1⟩).end_ts = (kdata.get ⟨ki, h.2⟩).ts then
      centerScan kdata
        (recs.set ci { recs.get ⟨ci, h.1⟩ with end_id := some ki }) (ci + 1) ki false
    else
      centerScan kdata recs ci (ki + 1) start_match
  else
    recs
termination_by (recs.length - ci, kdata.length - ki, cond start_match 0 1)
decreasing_by
  · simp only [List.length_set]
    rename_i hcond
    exact Prod.Lex.right _ (Prod.Lex.right _ (by simp [hcond.1]))
  · simp only [List.length_set]
    exact Prod.Lex.left _ _ (by omega)
  · exact Prod.Lex.right _ (Prod.Lex.left _ _ (by omega))

/-! ## Fuel-indexed versions of the matcher loops

To state termination of the `while` loops as a theorem rather than rely
on Lean's totality, each loop is replayed with an explicit iteration
budget; `none` means the budget ran out before the loop guard failed.
The termination claim is then: a budget computed from the cursor bounds
always suffices. -/

/-- Fuel-indexed replay of `strokeScan`. -/
def strokeScanFuel (kdata : List Candle) :
    Nat → List StrokeRec → Nat → Nat → Option (List StrokeRec)
  | 0, _, _, _ => none
  | fuel + 1, recs, si, ki =>
    if h : si < recs.length ∧ ki < kdata.length then
      if (recs.get ⟨si, h.1⟩).start_pt.extremum_ts = (kdata.get ⟨ki, h.2⟩).ts then
        strokeScanFuel kdata fuel
          (recs.set si { recs.get ⟨si, h.1⟩ with start_id := some ki }) si (ki + 1)
      else if (recs.get ⟨si, h.1⟩).end_pt.extremum_ts = (kdata.get ⟨ki, h.2⟩).ts then
        strokeScanFuel kdata fuel
          (recs.set si { recs.get ⟨si, h.1⟩ with end_id := some ki }) (si + 1) ki
      else
        strokeScanFuel kdata fuel recs si (ki + 1)
    else
      some recs

/-- Fuel-indexed replay of `subtrendScan`. -/
def subtrendScanFuel (kdata : List Candle) :
    Nat → List SubtrendRec → Nat → Nat → Bool → Option (List SubtrendRec)
  | 0, _, _, _, _ => none
  | fuel + 1, recs, si, ki, start_match =>
    if h : si < recs.length ∧ ki < kdata.length then
      if start_match = false ∧ (recs.get ⟨si, h.1⟩).start_ts = (kdata.get ⟨ki, h.2⟩).ts then
        subtrendScanFuel kdata fuel
          (recs.set si { recs.get ⟨si, h.1⟩ with start_id := some ki }) si ki true
      else if (recs.get ⟨si, h.1⟩).end_ts = (kdata.get ⟨ki, h.2⟩).ts then
        subtrendScanFuel kdata fuel
          (recs.set si { recs.get ⟨si, h.1⟩ with end_id := some ki }) (si + 1) ki false
      else
        subtrendScanFuel kdata fuel recs si (ki + 1) start_match
    else
      some recs

/-- Fuel-indexed replay of `centerScan`. -/
def centerScanFuel (kdata : List Candle) :
    Nat → List CenterRec → Nat → Nat → Bool → Option (List CenterRec)
  | 0, _, _, _, _ => none
  | fuel + 1, recs, ci, ki, start_match =>
    if h : ci < recs.length ∧ ki < kdata.length then
      if start_match = false ∧ (recs.get ⟨ci, h.1⟩).start_ts = (kdata.get ⟨ki, h.2⟩).ts then
        centerScanFuel kdata fuel
          (recs.set ci { recs.get ⟨ci, h.1⟩ with start_id := some ki }) ci ki true
      else if (recs.get ⟨ci, h.1⟩).end_ts = (kdata.get ⟨ki, h.2⟩).ts then
        centerScanFuel kdata fuel
          (recs.set ci { recs.get ⟨ci, h.1⟩ with end_id := some ki }) (ci + 1) ki false
      else
        centerScanFuel kdata fuel recs ci (ki + 1) start_match
    else
      some recs

/-! ## List helper lemmas

Small facts about `List.set` / `take` / `drop` used to relate the
cursor-based loops to their list-recursion reformulations. -/

theorem take_set_self {α : Type} (a : α) :
    ∀ (l : List α) (i : Nat), (l.set i a).take i = l.take i := by
  intro l
  induction l with
  | nil => intro i; simp
  | cons x xs ih =>
    intro i
    cases i with
    | zero => simp
    | succ j => simp [List.set, List.take, ih]

theorem drop_set_succ {α : Type} (a : α) :
    ∀ (l : List α) (i : Nat), (l.set i a).drop (i + 1) = l.drop (i + 1) := by
  intro l
  induction l with
  | nil => intro i; simp
  | cons x xs ih =>
    intro i
    cases i with
    | zero => simp
    | succ j => simpa using ih j

theorem drop_set_self {α : Type} (a : α) :
    ∀ (l : List α) (i : Nat), i < l.length →
      (l.set i a).drop i = a :: l.drop (i + 1) := by
  intro l
  induction l with
  | nil => intro i h; simp at h
  | cons x xs ih =>
    intro i h
    cases i with
    | zero => simp
    | succ j =>
      simp only [List.set, List.drop]
      exact ih j (by simpa using h)

theorem take_succ_set_self {α : Type} (a : α) :
    ∀ (l : List α) (i : Nat), i < l.length →
      (l.set i a).take (i + 1) = l.take i ++ [a] := by
  intro l
  induction l with
  | nil => intro i h; simp at h
  | cons x xs ih =>
    intro i h
    cases i with
    | zero => simp
    | succ j =>
      simp only [List.set, List.take, List.cons_append, List.cons.injEq, true_and]
      exact ih j (by simpa using h)

/-! ## List-recursion reformulation of the stroke matcher

`strokeScan` walks an index `si` through the record array; `strokeSegs`
is the same loop expressed by structural recursion on the record list.
The bridge lemma `strokeScan_eq_segs` identifies the two. -/

/-- Head-recursion formulation of the `stroke.draw` matcher loop. -/
def strokeSegs (kdata : List Candle) : List StrokeRec → Nat → List StrokeRec
  | [], _ => []
  | r :: rest, ki =>
    if h : ki < kdata.length then
      if r.start_pt.extremum_ts = (kdata.get ⟨ki, h⟩).ts then
        strokeSegs kdata ({ r with start_id := some ki } :: rest) (ki + 1)
      else if r.end_pt.extremum_ts = (kdata.get ⟨ki, h⟩).ts then
        { r with end_id := some ki } :: strokeSegs kdata rest ki
      else
        strokeSegs kdata (r :: rest) (ki + 1)
    else
      r :: rest
termination_by recs ki => (recs.length, kdata.length - ki)
decreasing_by
  · simp only [List.length_cons]
    exact Prod.Lex.right _ (by omega)
  · simp only [List.length_cons]
    exact Prod.Lex.left _ _ (by omega)
  · simp only [List.length_cons]
    exact Prod.Lex.right _ (by omega)

theorem strokeScan_eq_segs (kdata : List Candle) :
    ∀ (recs : List StrokeRec) (si ki : Nat), si ≤ recs.length →
      strokeScan kdata recs si ki =
        recs.take si ++ strokeSegs kdata (recs.drop si) ki := by
  intro recs si ki
  induction recs, si, ki using strokeScan.induct kdata with
  | case1 recs si ki h hs ih =>
    intro _
    simp only [List.get_eq_getElem] at hs ih
    rw [strokeScan]
    simp only [dif_pos h, List.get_eq_getElem, if_pos hs]
    rw [ih (by simp only [List.length_set]; omega)]
    rw [take_set_self, drop_set_self _ _ _ h.1]
    conv_rhs => rw [List.drop_eq_getElem_cons h.1, strokeSegs]
    simp only [dif_pos h.2, List.get_eq_getElem, if_pos hs]
  | case2 recs si ki h hs he ih =>
    intro _
    simp only [List.get_eq_getElem] at hs he ih
    rw [strokeScan]
    simp only [dif_pos h, List.get_eq_getElem, if_neg hs, if_pos he]
    rw [ih (by simp only [List.length_set]; omega)]
    rw [take_succ_set_self _ _ _ h.1, drop_set_succ]
    conv_rhs => rw [List.drop_eq_getElem_cons h.1, strokeSegs]
    simp only [dif_pos h.2, List.get_eq_getElem, if_neg hs, if_pos he]
    simp
  | case3 recs si ki h hs he ih =>
    intro hle
    simp only [List.get_eq_getElem] at hs he ih
    rw [strokeScan]
    simp only [dif_pos h, List.get_eq_getElem, if_neg hs, if_neg he]
    rw [ih hle]
    conv_rhs => rw [List.drop_eq_getElem_cons h.1, strokeSegs]
    simp only [dif_pos h.2, List.get_eq_getElem, if_neg hs, if_neg he]
    rw [← List.drop_eq_getElem_cons h.1]
  | case4 recs si ki h =>
    intro hle
    rw [strokeScan]
    simp only [dif_neg h]
    rcases Nat.lt_or_ge si recs.length with hsi | hsi
    · have hki : ¬ ki < kdata.length := by
        intro hk; exact h ⟨hsi, hk⟩
      rw [List.drop_eq_getElem_cons hsi]
      conv_rhs => rw [strokeSegs]
      simp only [dif_neg hki]
      rw [← List.drop_eq_getElem_cons hsi, List.take_append_drop]
    · have hsi' : si = recs.length := le_antisymm hle hsi
      subst hsi'
      simp [strokeSegs]

/-! ## List-recursion reformulation of the center matcher -/

/-- Head-recursion formulation of the `center.draw` matcher loop. -/
def centerSegs (kdata : List Candle) :
    List CenterRec → Nat → Bool → List CenterRec
  | [], _, _ => []
  | r :: rest, ki, start_match =>
    if h : ki < kdata.length then
      if start_match = false ∧ r.start_ts = (kdata.get ⟨ki, h⟩).ts then
        centerSegs kdata ({ r with start_id := some ki } :: rest) ki true
      else if r.end_ts = (kdata.get ⟨ki, h⟩).ts then
        { r with end_id := some ki } :: centerSegs kdata rest ki false
      else
        centerSegs kdata (r :: rest) (ki + 1) start_match
    else
      r :: rest
termination_by recs ki sm => (recs.length, kdata.length - ki, cond sm 0 1)
decreasing_by
  · simp only [List.length_cons]
    rename_i hcond
    exact Prod.Lex.right _ (Prod.Lex.right _ (by simp [hcond.1]))
  · simp only [List.length_cons]
    exact Prod.Lex.left _ _ (by omega)
  · simp only [List.length_cons]
    exact Prod.Lex.right _ (Prod.Lex.left _ _ (by omega))

theorem centerScan_eq_segs (kdata : List Candle) :
    ∀ (recs : List CenterRec) (ci ki : Nat) (sm : Bool), ci ≤ recs.length →
      centerScan kdata recs ci ki sm =
        recs.take ci ++ centerSegs kdata (recs.drop ci) ki sm := by
  intro recs ci ki sm
  induction recs, ci, ki, sm using centerScan.induct kdata with
  | case1 recs ci ki sm h hc ih =>
    intro _
    simp only [List.get_eq_getElem] at hc ih
    rw [centerScan]
    simp only [dif_pos h, List.get_eq_getElem, if_pos hc]
    rw [ih (by simp only [List.length_set]; omega)]
    rw [take_set_self, drop_set_self _ _ _ h.1]
    conv_rhs => rw [List.drop_eq_getElem_cons h.1, centerSegs]
    simp only [dif_pos h.2, List.get_eq_getElem, if_pos hc]
  | case2 recs ci ki sm h hc he ih =>
    intro _
    simp only [List.get_eq_getElem] at hc he ih
    rw [centerScan]
    simp only [dif_pos h, List.get_eq_getElem, if_neg hc, if_pos he]
    rw [ih (by simp only [List.length_set]; omega)]
    rw [take_succ_set_self _ _ _ h.1, drop_set_succ]
    conv_rhs => rw [List.drop_eq_getElem_cons h.1, centerSegs]
    simp only [dif_pos h.2, List.get_eq_getElem, if_neg hc, if_pos he]
    simp
  | case3 recs ci ki sm h hc he ih =>
    intro hle
    simp only [List.get_eq_getElem] at hc he ih
    rw [centerScan]
    simp only [dif_pos h, List.get_eq_getElem, if_neg hc, if_neg he]
    rw [ih hle]
    conv_rhs => rw [List.drop_eq_getElem_cons h.1, centerSegs]
    simp only [dif_pos h.2, List.get_eq_getElem, if_neg hc, if_neg he]
    rw [← List.drop_eq_getElem_cons h.1]
  | case4 recs ci ki sm h =>
    intro hle
    rw [centerScan]
    simp only [dif_neg h]
    rcases Nat.lt_or_ge ci recs.length with hci | hci
    · have hki : ¬ ki < kdata.length := by
        intro hk; exact h ⟨hci, hk⟩
      rw [List.drop_eq_getElem_cons hci]
      conv_rhs => rw [centerSegs]
      simp only [dif_neg hki]
      rw [← List.drop_eq_getElem_cons hci, List.take_append_drop]
    · have hci' : ci = recs.length := le_antisymm hle hci
      subst hci'
      simp [centerSegs]

/-! ## Timestamp positions in a strictly increasing candle sequence -/

/-- The timestamps of a candle sequence, in order. -/
def tsList (kdata : List Candle) : List Nat := kdata.map Candle.ts

/-- Position of timestamp `t` in the candle sequence (first occurrence). -/
def tsIndex (kdata : List Candle) (t : Nat) : Nat := (tsList kdata).indexOf t

/-- The CandleSeries invariant: strictly increasing timestamps. -/
def StrictCandles (kdata : List Candle) : Prop :=
  List.Pairwise (fun a b => a < b) (tsList kdata)

instance (kdata : List Candle) : Decidable (StrictCandles kdata) :=
  List.instDecidablePairwise _

theorem StrictCandles.nodup {kdata : List Candle} (h : StrictCandles kdata) :
    (tsList kdata).Nodup :=
  h.imp (fun hab => Nat.ne_of_lt hab)

theorem tsIndex_lt_length {kdata : List Candle} {t : Nat}
    (h : t ∈ tsList kdata) : tsIndex kdata t < kdata.length := by
  have := List.indexOf_lt_length.2 h
  simpa [tsIndex, tsList] using this

theorem ts_get_tsIndex {kdata : List Candle} {t : Nat} (h : t ∈ tsList kdata) :
    (kdata.get ⟨tsIndex kdata t, tsIndex_lt_length h⟩).ts = t := by
  have hl : (tsList kdata).indexOf t < (tsList kdata).length :=
    List.indexOf_lt_length.2 h
  have h1 := List.getElem_indexOf hl
  simp only [tsList, List.getElem_map] at h1
  simpa [tsIndex, tsList] using h1

theorem tsIndex_unique {kdata : List Candle} (hmono : StrictCandles kdata)
    {j : Nat} (hj : j < kdata.length) {t : Nat} (he : (kdata.get ⟨j, hj⟩).ts = t) :
    j = tsIndex kdata t := by
  have hjl : j < (tsList kdata).length := by simpa [tsList] using hj
  have hget : (tsList kdata)[j] = t := by
    simpa [tsList] using he
  have := List.indexOf_getElem hmono.nodup j hjl
  rw [hget] at this
  exact this.symm

theorem tsIndex_mono {kdata : List Candle} (hmono : StrictCandles kdata)
    {a b : Nat} (ha : a ∈ tsList kdata) (hb : b ∈ tsList kdata) (hab : a < b) :
    tsIndex kdata a < tsIndex kdata b := by
  have hal : (tsList kdata).indexOf a < (tsList kdata).length :=
    List.indexOf_lt_length.2 ha
  have hbl : (tsList kdata).indexOf b < (tsList kdata).length :=
    List.indexOf_lt_length.2 hb
  rcases Nat.lt_trichotomy (tsIndex kdata a) (tsIndex kdata b) with h | h | h
  · exact h
  · exfalso
    have : a = b := by
      have h1 : (tsList kdata)[(tsList kdata).indexOf a] = a :=
        List.getElem_indexOf hal
      have h2 : (tsList kdata)[(tsList kdata).indexOf b] = b :=
        List.getElem_indexOf hbl
      rw [← h1, ← h2]
      simp only [tsIndex] at h
      simp [h]
    omega
  · exfalso
    have hlt := (List.pairwise_iff_getElem.mp hmono) _ _ hbl hal h
    have h1 : (tsList kdata)[(tsList kdata).indexOf a] = a :=
      List.getElem_indexOf hal
    have h2 : (tsList kdata)[(tsList kdata).indexOf b] = b :=
      List.getElem_indexOf hbl
    rw [h1, h2] at hlt
    omega

/-! ## Characterization of the stroke matcher on chained, fully present data -/

/-- Candle steps of the scan between two matches only advance `ki`. -/
theorem strokeSegs_skip (kdata : List Candle) (r : StrokeRec)
    (rest : List StrokeRec) (p : Nat) :
    ∀ n ki, ki + n = p →
      (∀ j (hj : j < kdata.length), ki ≤ j → j < p →
        ¬ r.start_pt.extremum_ts = (kdata.get ⟨j, hj⟩).ts ∧
        ¬ r.end_pt.extremum_ts = (kdata.get ⟨j, hj⟩).ts) →
      strokeSegs kdata (r :: rest) ki = strokeSegs kdata (r :: rest) p := by
  intro n
  induction n with
  | zero =>
    intro ki hki _
    have : ki = p := by omega
    rw [this]
  | succ m ih =>
    intro ki hki hno
    have hlt : ki < p := by omega
    by_cases hkik : ki < kdata.length
    · rw [strokeSegs]
      simp only [dif_pos hkik]
      rw [if_neg (by
        intro hc
        exact (hno ki hkik le_rfl hlt).1 hc)]
      rw [if_neg (by
        intro hc
        exact (hno ki hkik le_rfl hlt).2 hc)]
      exact ih (ki + 1) (by omega) (fun j hj h1 h2 => hno j hj (by omega) h2)
    · have hpk : ¬ p < kdata.length := by
        intro hp
        exact hkik (by omega)
      rw [strokeSegs]
      simp only [dif_neg hkik]
      conv_rhs => rw [strokeSegs]
      simp only [dif_neg hpk]

/-- The annotation written by a successful match of both boundaries. -/
def strokeAnnot (kdata : List Candle) (r : StrokeRec) : StrokeRec :=
  { r with
    start_id := some (tsIndex kdata r.start_pt.extremum_ts)
    end_id := some (tsIndex kdata r.end_pt.extremum_ts) }

/-- The chained-overlay invariant of §3 of the spec, for stroke records:
each record's end timestamp is the next record's start timestamp. -/
def StrokeChain : List StrokeRec → Prop
  | [] => True
  | [_] => True
  | a :: b :: rest =>
    a.end_pt.extremum_ts = b.start_pt.extremum_ts ∧ StrokeChain (b :: rest)

instance : ∀ l : List StrokeRec, Decidable (StrokeChain l)
  | [] => isTrue trivial
  | [_] => isTrue trivial
  | _a :: b :: rest =>
    have : Decidable (StrokeChain (b :: rest)) := instDecidableStrokeChain _
    instDecidableAnd

/-- Main characterization: on a strictly increasing candle sequence, a
chained, ascending stroke list all of whose boundary timestamps occur in
the candle sequence, started at or before the position of the current
record's start, is annotated exactly with the positions of its boundary
timestamps. -/
theorem strokeSegs_all_present (kdata : List Candle)
    (hmono : StrictCandles kdata) :
    ∀ (segs : List StrokeRec) (ki : Nat),
      StrokeChain segs →
      (∀ r ∈ segs, r.start_pt.extremum_ts < r.end_pt.extremum_ts) →
      (∀ r ∈ segs, r.start_pt.extremum_ts ∈ tsList kdata ∧
        r.end_pt.extremum_ts ∈ tsList kdata) →
      (∀ r, segs.head? = some r → ki ≤ tsIndex kdata r.start_pt.extremum_ts) →
      strokeSegs kdata segs ki = segs.map (strokeAnnot kdata) := by
  intro segs
  induction segs with
  | nil =>
    intro ki _ _ _ _
    rw [strokeSegs]
    rfl
  | cons r rest ih =>
    intro ki hchain hasc hpres hhead
    have hsp : r.start_pt.extremum_ts ∈ tsList kdata :=
      (hpres r (List.mem_cons_self r rest)).1
    have hep : r.end_pt.extremum_ts ∈ tsList kdata :=
      (hpres r (List.mem_cons_self r rest)).2
    have hlt : r.start_pt.extremum_ts < r.end_pt.extremum_ts :=
      hasc r (List.mem_cons_self r rest)
    have hps : tsIndex kdata r.start_pt.extremum_ts < kdata.length :=
      tsIndex_lt_length hsp
    have hpe : tsIndex kdata r.end_pt.extremum_ts < kdata.length :=
      tsIndex_lt_length hep
    have hpspe : tsIndex kdata r.start_pt.extremum_ts <
        tsIndex kdata r.end_pt.extremum_ts :=
      tsIndex_mono hmono hsp hep hlt
    have hki : ki ≤ tsIndex kdata r.start_pt.extremum_ts := hhead r rfl
    -- step 1: advance to the position of the start timestamp
    rw [strokeSegs_skip kdata r rest (tsIndex kdata r.start_pt.extremum_ts)
      (tsIndex kdata r.start_pt.extremum_ts - ki) ki (by omega)
      (by
        intro j hj h1 h2
        constructor
        · intro hc
          have := tsIndex_unique hmono hj hc.symm
          omega
        · intro hc
          have := tsIndex_unique hmono hj hc.symm
          omega)]
    -- step 2: the start branch fires
    rw [strokeSegs]
    simp only [dif_pos hps]
    rw [if_pos (ts_get_tsIndex hsp).symm]
    -- step 3: advance to the position of the end timestamp
    rw [strokeSegs_skip kdata _ rest (tsIndex kdata r.end_pt.extremum_ts)
      (tsIndex kdata r.end_pt.extremum_ts -
        (tsIndex kdata r.start_pt.extremum_ts + 1))
      (tsIndex kdata r.start_pt.extremum_ts + 1) (by omega)
      (by
        intro j hj h1 h2
        constructor
        · intro hc
          have hc' : r.start_pt.extremum_ts = (kdata.get ⟨j, hj⟩).ts := hc
          have := tsIndex_unique hmono hj hc'.symm
          omega
        · intro hc
          have hc' : r.end_pt.extremum_ts = (kdata.get ⟨j, hj⟩).ts := hc
          have := tsIndex_unique hmono hj hc'.symm
          omega)]
    -- step 4: the end branch fires
    rw [strokeSegs]
    simp only [dif_pos hpe]
    rw [if_neg (by
      intro hc
      have hc' : r.start_pt.extremum_ts =
          (kdata.get ⟨tsIndex kdata r.end_pt.extremum_ts, hpe⟩).ts := hc
      rw [ts_get_tsIndex hep] at hc'
      omega)]
    rw [if_pos (show _ = (kdata.get ⟨tsIndex kdata r.end_pt.extremum_ts, hpe⟩).ts from
      (ts_get_tsIndex hep).symm)]
    -- step 5: recurse on the rest of the chain
    have hchain' : StrokeChain rest := by
      cases rest with
      | nil => trivial
      | cons b rest' => exact hchain.2
    rw [ih (tsIndex kdata r.end_pt.extremum_ts) hchain'
      (fun x hx => hasc x (List.mem_cons_of_mem r hx))
      (fun x hx => hpres x (List.mem_cons_of_mem r hx))
      (by
        intro b hb
        cases rest with
        | nil => simp at hb
        | cons b' rest' =>
          simp only [List.head?_cons, Option.some.injEq] at hb
          subst hb
          rw [← hchain.1])]
    rfl

/-! ## Characterization of the center matcher on chained, fully present data -/

/-- Candle steps of the center scan between two matches only advance
`ki`; the `start_match` flag rides along unchanged. -/
theorem centerSegs_skip (kdata : List Candle) (r : CenterRec)
    (rest : List CenterRec) (p : Nat) :
    ∀ n ki sm, ki + n = p →
      (∀ j (hj : j < kdata.length), ki ≤ j → j < p →
        ¬ (sm = false ∧ r.start_ts = (kdata.get ⟨j, hj⟩).ts) ∧
        ¬ r.end_ts = (kdata.get ⟨j, hj⟩).ts) →
      centerSegs kdata (r :: rest) ki sm = centerSegs kdata (r :: rest) p sm := by
  intro n
  induction n with
  | zero =>
    intro ki sm hki _
    have : ki = p := by omega
    rw [this]
  | succ m ih =>
    intro ki sm hki hno
    have hlt : ki < p := by omega
    by_cases hkik : ki < kdata.length
    · rw [centerSegs]
      simp only [dif_pos hkik]
      rw [if_neg (by
        intro hc
        exact (hno ki hkik le_rfl hlt).1 hc)]
      rw [if_neg (by
        intro hc
        exact (hno ki hkik le_rfl hlt).2 hc)]
      exact ih (ki + 1) sm (by omega) (fun j hj h1 h2 => hno j hj (by omega) h2)
    · have hpk : ¬ p < kdata.length := by
        intro hp
        exact hkik (by omega)
      rw [centerSegs]
      simp only [dif_neg hkik]
      conv_rhs => rw [centerSegs]
      simp only [dif_neg hpk]

/-- The annotation written by a successful match of both center
boundaries. -/
def centerAnnot (kdata : List Candle) (r : CenterRec) : CenterRec :=
  { r with
    start_id := some (tsIndex kdata r.start_ts)
    end_id := some (tsIndex kdata r.end_ts) }

/-- The chained-overlay invariant for center records. -/
def CenterChain : List CenterRec → Prop
  | [] => True
  | [_] => True
  | a :: b :: rest => a.end_ts = b.start_ts ∧ CenterChain (b :: rest)

instance : ∀ l : List CenterRec, Decidable (CenterChain l)
  | [] => isTrue trivial
  | [_] => isTrue trivial
  | _a :: b :: rest =>
    have : Decidable (CenterChain (b :: rest)) := instDecidableCenterChain _
    instDecidableAnd

/-- Main characterization of the center scan, analogous to
`strokeSegs_all_present`; the scan starts with `start_match = false`. -/
theorem centerSegs_all_present (kdata : List Candle)
    (hmono : StrictCandles kdata) :
    ∀ (segs : List CenterRec) (ki : Nat),
      CenterChain segs →
      (∀ r ∈ segs, r.start_ts < r.end_ts) →
      (∀ r ∈ segs, r.start_ts ∈ tsList kdata ∧ r.end_ts ∈ tsList kdata) →
      (∀ r, segs.head? = some r → ki ≤ tsIndex kdata r.start_ts) →
      centerSegs kdata segs ki false = segs.map (centerAnnot kdata) := by
  intro segs
  induction segs with
  | nil =>
    intro ki _ _ _ _
    rw [centerSegs]
    rfl
  | cons r rest ih =>
    intro ki hchain hasc hpres hhead
    have hsp : r.start_ts ∈ tsList kdata := (hpres r (List.mem_cons_self r rest)).1
    have hep : r.end_ts ∈ tsList kdata := (hpres r (List.mem_cons_self r rest)).2
    have hlt : r.start_ts < r.end_ts := hasc r (List.mem_cons_self r rest)
    have hps : tsIndex kdata r.start_ts < kdata.length := tsIndex_lt_length hsp
    have hpe : tsIndex kdata r.end_ts < kdata.length := tsIndex_lt_length hep
    have hpspe : tsIndex kdata r.start_ts < tsIndex kdata r.end_ts :=
      tsIndex_mono hmono hsp hep hlt
    have hki : ki ≤ tsIndex kdata r.start_ts := hhead r rfl
    -- step 1: advance to the position of the start timestamp
    rw [centerSegs_skip kdata r rest (tsIndex kdata r.start_ts)
      (tsIndex kdata r.start_ts - ki) ki false (by omega)
      (by
        intro j hj h1 h2
        constructor
        · intro hc
          have := tsIndex_unique hmono hj hc.2.symm
          omega
        · intro hc
          have := tsIndex_unique hmono hj hc.symm
          omega)]
    -- step 2: the start branch fires, holding ki and raising the flag
    rw [centerSegs]
    simp only [dif_pos hps]
    rw [if_pos ⟨by trivial, (ts_get_tsIndex hsp).symm⟩]
    -- step 3: advance to the position of the end timestamp with the flag up
    rw [centerSegs_skip kdata _ rest (tsIndex kdata r.end_ts)
      (tsIndex kdata r.end_ts - tsIndex kdata r.start_ts)
      (tsIndex kdata r.start_ts) true (by omega)
      (by
        intro j hj h1 h2
        constructor
        · intro hc
          simp at hc
        · intro hc
          have hc' : r.end_ts = (kdata.get ⟨j, hj⟩).ts := hc
          have := tsIndex_unique hmono hj hc'.symm
          omega)]
    -- step 4: the end branch fires, holding ki and clearing the flag
    rw [centerSegs]
    simp only [dif_pos hpe]
    rw [if_neg (by
      intro hc
      simp at hc)]
    rw [if_pos (show _ = (kdata.get ⟨tsIndex kdata r.end_ts, hpe⟩).ts from
      (ts_get_tsIndex hep).symm)]
    -- step 5: recurse on the rest of the chain
    have hchain' : CenterChain rest := by
      cases rest with
      | nil => trivial
      | cons b rest' => exact hchain.2
    rw [ih (tsIndex kdata r.end_ts) hchain'
      (fun x hx => hasc x (List.mem_cons_of_mem r hx))
      (fun x hx => hpres x (List.mem_cons_of_mem r hx))
      (by
        intro b hb
        cases rest with
        | nil => simp at hb
        | cons b' rest' =>
          simp only [List.head?_cons, Option.some.injEq] at hb
          subst hb
          rw [← hchain.1])]
    rfl

/-! ## Soundness of stroke annotations and output cardinality -/

/-- Length preservation: the matcher only rewrites records in place. -/
theorem strokeSegs_length (kdata : List Candle) :
    ∀ (segs : List StrokeRec) (ki : Nat),
      (strokeSegs kdata segs ki).length = segs.length := by
  intro segs ki
  induction segs, ki using strokeSegs.induct kdata with
  | case1 ki => rw [strokeSegs]
  | case2 r rest ki h hs ih =>
    rw [strokeSegs]
    simp only [dif_pos h, if_pos hs]
    simpa using ih
  | case3 r rest ki h hs he ih =>
    rw [strokeSegs]
    simp only [dif_pos h, if_neg hs, if_pos he]
    simpa using ih
  | case4 r rest ki h hs he ih =>
    rw [strokeSegs]
    simp only [dif_pos h, if_neg hs, if_neg he]
    simpa using ih
  | case5 r rest ki h =>
    rw [strokeSegs]
    simp [dif_neg h]

/-- Boundary-point preservation: the matcher never changes `start_pt` /
`end_pt`, only the id annotations. -/
theorem strokeSegs_pts (kdata : List Candle) :
    ∀ (segs : List StrokeRec) (ki : Nat),
      (strokeSegs kdata segs ki).map (fun r => (r.start_pt, r.end_pt)) =
        segs.map (fun r => (r.start_pt, r.end_pt)) := by
  intro segs ki
  induction segs, ki using strokeSegs.induct kdata with
  | case1 ki => rw [strokeSegs]
  | case2 r rest ki h hs ih =>
    rw [strokeSegs]
    simp only [dif_pos h, if_pos hs]
    simpa using ih
  | case3 r rest ki h hs he ih =>
    rw [strokeSegs]
    simp only [dif_pos h, if_neg hs, if_pos he]
    simpa using ih
  | case4 r rest ki h hs he ih =>
    rw [strokeSegs]
    simp only [dif_pos h, if_neg hs, if_neg he]
    simpa using ih
  | case5 r rest ki h =>
    rw [strokeSegs]
    simp [dif_neg h]

/-- An annotation on a record is sound when the annotated boundary
timestamp really occurs in the candle sequence. -/
def AnnotSound (kdata : List Candle) (r : StrokeRec) : Prop :=
  (r.start_id.isSome = true → r.start_pt.extremum_ts ∈ tsList kdata) ∧
  (r.end_id.isSome = true → r.end_pt.extremum_ts ∈ tsList kdata)

/-- The matcher writes only sound annotations: a record can leave the scan
with `start_id` (resp. `end_id`) present only if the corresponding
timestamp occurs in the candle sequence. -/
theorem strokeSegs_sound (kdata : List Candle) :
    ∀ (segs : List StrokeRec) (ki : Nat),
      (∀ r ∈ segs, AnnotSound kdata r) →
      ∀ r' ∈ strokeSegs kdata segs ki, AnnotSound kdata r' := by
  intro segs ki
  induction segs, ki using strokeSegs.induct kdata with
  | case1 ki =>
    intro _ r' hr'
    rw [strokeSegs] at hr'
    simp at hr'
  | case2 r rest ki h hs ih =>
    intro hall r' hr'
    rw [strokeSegs] at hr'
    simp only [dif_pos h, if_pos hs] at hr'
    refine ih ?_ r' hr'
    intro x hx
    rcases List.mem_cons.mp hx with hx | hx
    · subst hx
      refine ⟨?_, ?_⟩
      · intro _
        rw [hs]
        exact List.mem_map.mpr ⟨kdata.get ⟨ki, h⟩, List.get_mem kdata ki h, rfl⟩
      · intro hsome
        exact (hall r (List.mem_cons_self r rest)).2 hsome
    · exact hall x (List.mem_cons_of_mem r hx)
  | case3 r rest ki h hs he ih =>
    intro hall r' hr'
    rw [strokeSegs] at hr'
    simp only [dif_pos h, if_neg hs, if_pos he] at hr'
    rcases List.mem_cons.mp hr' with hr' | hr'
    · subst hr'
      refine ⟨?_, ?_⟩
      · intro hsome
        exact (hall r (List.mem_cons_self r rest)).1 hsome
      · intro _
        rw [he]
        exact List.mem_map.mpr ⟨kdata.get ⟨ki, h⟩, List.get_mem kdata ki h, rfl⟩
    · exact ih (fun x hx => hall x (List.mem_cons_of_mem r hx)) r' hr'
  | case4 r rest ki h hs he ih =>
    intro hall r' hr'
    rw [strokeSegs] at hr'
    simp only [dif_pos h, if_neg hs, if_neg he] at hr'
    exact ih hall r' hr'
  | case5 r rest ki h =>
    intro hall r' hr'
    rw [strokeSegs] at hr'
    simp only [dif_neg h] at hr'
    exact hall r' hr'

/-- Two pointwise-incompatible predicates cannot together count more than
the list length. -/
theorem countP_disjoint_le {α : Type} (p q : α → Bool) :
    ∀ l : List α, (∀ a ∈ l, ¬(p a = true ∧ q a = true)) →
      l.countP p + l.countP q ≤ l.length := by
  intro l
  induction l with
  | nil => intro _; simp
  | cons x xs ih =>
    intro hdisj
    have hx := hdisj x (List.mem_cons_self x xs)
    have hxs := ih (fun a ha => hdisj a (List.mem_cons_of_mem x ha))
    by_cases hp : p x = true
    · have hq : ¬ q x = true := fun hqq => hx ⟨hp, hqq⟩
      rw [List.countP_cons_of_pos _ _ hp, List.countP_cons_of_neg _ _ hq]
      simp only [List.length_cons]
      omega
    · rw [List.countP_cons_of_neg _ _ hp]
      by_cases hq : q x = true
      · rw [List.countP_cons_of_pos _ _ hq]
        simp only [List.length_cons]
        omega
      · rw [List.countP_cons_of_neg _ _ hq]
        simp only [List.length_cons]
        omega

/-! ## Module state, draw gating, and network handlers

Each overlay module of the source holds a module-level array `_data` and
flag `_outdate` (initially `true`).  These are embedded as a state record
per module.  DOM reads (`$("#stroke_draw").is(":checked")`,
`d3.select("#k_lines").empty()`) are passed in as booleans.  A drawn shape
is recorded by the id pair that positions it (the pixel positions
`start_id * bar_width + bar_inner_width / 2` are strictly monotone in the
ids, and prices do not depend on the matcher). -/

/-- A shape appended to the svg, identified by its positioning ids:
`sid`/`eid` are the candle indices that determine its x-geometry. -/
structure Shape where
  sid : Nat
  eid : Nat
deriving Repr, DecidableEq

/-- Visible side effects of a draw attempt, beyond shape emission. -/
inductive DrawEffect where
  | idle
  | logSkip
  | fetch
deriving Repr, DecidableEq

/-- Visible side effects of an ajax completion handler. -/
inductive UiAction where
  | log
  | clearTable
  | request
deriving Repr, DecidableEq

/-- Result of one module draw attempt. -/
structure DrawResult (σ : Type) where
  state : σ
  shapes : List Shape
  effect : DrawEffect
deriving Repr, DecidableEq

/-- State of the stroke module (`tanglism-stroke.js` lines 15-16):
`const _data = []; var _outdate = true;`. -/
structure StrokeState where
  data : List StrokeRec
  outdate : Bool := true
deriving Repr, DecidableEq

/-- State of the segment module (`tanglism-segment.js` lines 16-17). -/
structure SegmentState where
  data : List SegmentRec
  outdate : Bool := true
deriving Repr, DecidableEq

/-- State of the sub-trend module (`tanglism-subtrend.js` lines 13-14). -/
structure SubtrendState where
  data : List SubtrendRec
  outdate : Bool := true
deriving Repr, DecidableEq

/-- State of the center module (`tanglism-center.js` lines 15-16). -/
structure CenterState where
  data : List CenterRec
  outdate : Bool := true
deriving Repr, DecidableEq

/-- A parting record (`src/unnamed/part_001`, the parting module):
`{extremum_ts, extremum_price, start_ts, end_ts, n, top}`. -/
structure PartingRec where
  extremum_ts : Nat
  extremum_price : Int := 0
  start_ts : Nat := 0
  end_ts : Nat := 0
  n : Nat := 0
  top : Bool := true
deriving Repr, DecidableEq

/-- State of the parting module (`src/unnamed/part_001` lines 13-15). -/
structure PartingState where
  data : List PartingRec
  outdate : Bool := true
deriving Repr, DecidableEq

namespace stroke

/-- `stroke.data(input)` with an argument (`tanglism-stroke.js` 18-28):
wholesale replacement of `_data`, then `_outdate = false`. -/
def data (input : List StrokeRec) (_st : StrokeState) : StrokeState :=
  { data := input, outdate := false }

/-- `stroke.clear_data()` (lines 30-33): empty `_data`, `_outdate = true`. -/
def clear_data (_st : StrokeState) : StrokeState :=
  { data := [], outdate := true }

/-- `stroke.outdate()` (lines 184-186). -/
def outdate (st : StrokeState) : StrokeState :=
  { st with outdate := true }

/-- `stroke.draw(config)` (lines 36-126).  `stroke_draw_check` is the
`#stroke_draw` checkbox, `k_lines_exists` is `!d3.select("#k_lines").empty()`.
When `_outdate` holds, the module logs `"stroke outdate"` and returns
without drawing.  Otherwise it runs the matcher (mutating `_data`),
filters the records with both annotations, and appends one line per
filtered record. -/
def draw (stroke_draw_check : Bool) (k_lines_exists : Bool)
    (kdata : List Candle) (st : StrokeState) : DrawResult StrokeState :=
  if stroke_draw_check = false then ⟨st, [], .idle⟩
  else if st.outdate = true then ⟨st, [], .logSkip⟩
  else if k_lines_exists = false then ⟨st, [], .idle⟩
  else if kdata.length = 0 ∨ st.data.length = 0 then ⟨st, [], .idle⟩
  else
    let recs := strokeScan kdata st.data 0 0
    let strokes := recs.filter (fun r => r.start_id.isSome && r.end_id.isSome)
    ⟨{ st with data := recs },
      strokes.map (fun r => ⟨r.start_id.getD 0, r.end_id.getD 0⟩), .idle⟩

end stroke

namespace segment

/-- `segment.data(input)` (`tanglism-segment.js` 19-29). -/
def data (input : List SegmentRec) (_st : SegmentState) : SegmentState :=
  { data := input, outdate := false }

/-- `segment.outdate()` (lines 209-211). -/
def outdate (st : SegmentState) : SegmentState :=
  { st with outdate := true }

/-- `segment.draw(config)` (lines 87-185).  When `_outdate` holds, the
module calls `ajax(ajax_params())` and returns without drawing. -/
def draw (segment_draw_check : Bool) (k_lines_exists : Bool)
    (kdata : List Candle) (st : SegmentState) : DrawResult SegmentState :=
  if segment_draw_check = false then ⟨st, [], .idle⟩
  else if st.outdate = true then ⟨st, [], .fetch⟩
  else if k_lines_exists = false then ⟨st, [], .idle⟩
  else if kdata.length = 0 ∨ st.data.length = 0 then ⟨st, [], .idle⟩
  else
    let recs := segmentScan kdata st.data 0 0
    let segments := recs.filter (fun r => r.start_id.isSome && r.end_id.isSome)
    ⟨{ st with data := recs },
      segments.map (fun r => ⟨r.start_id.getD 0, r.end_id.getD 0⟩), .idle⟩

/-- The `error` callback of `segment.ajax` (lines 202-205):
`console.log(...); clear_table();` — the stored records and the staleness
flag are untouched, and no further request is issued. -/
def ajax_error (st : SegmentState) : SegmentState × List UiAction :=
  (st, [.log, .clearTable])

/-- The `success` callback of `segment.ajax` (lines 197-201):
`data(resp.data), draw(); table();`. -/
def ajax_success (resp : List SegmentRec) (segment_draw_check k_lines_exists : Bool)
    (kdata : List Candle) (st : SegmentState) : DrawResult SegmentState :=
  draw segment_draw_check k_lines_exists kdata (data resp st)

end segment

namespace subtrend

/-- `subtrend.data(input)` (`tanglism-subtrend.js` 16-26). -/
def data (input : List SubtrendRec) (_st : SubtrendState) : SubtrendState :=
  { data := input, outdate := false }

/-- `subtrend.outdate()` (lines 189-191). -/
def outdate (st : SubtrendState) : SubtrendState :=
  { st with outdate := true }

/-- `subtrend.draw(config)` (lines 85-187).  When `_outdate` holds, the
module logs `"subtrend outdate"` and returns without drawing. -/
def draw (subtrend_draw_check : Bool) (k_lines_exists : Bool)
    (kdata : List Candle) (st : SubtrendState) : DrawResult SubtrendState :=
  if subtrend_draw_check = false then ⟨st, [], .idle⟩
  else if st.outdate = true then ⟨st, [], .logSkip⟩
  else if k_lines_exists = false then ⟨st, [], .idle⟩
  else if kdata.length = 0 ∨ st.data.length = 0 then ⟨st, [], .idle⟩
  else
    let recs := subtrendScan kdata st.data 0 0 false
    let subtrends := recs.filter (fun r => r.start_id.isSome && r.end_id.isSome)
    ⟨{ st with data := recs },
      subtrends.map (fun r => ⟨r.start_id.getD 0, r.end_id.getD 0⟩), .idle⟩

end subtrend

namespace center

/-- `center.data(input)` (`tanglism-center.js` 18-28). -/
def data (input : List CenterRec) (_st : CenterState) : CenterState :=
  { data := input, outdate := false }

/-- `center.outdate()` (lines 185-187). -/
def outdate (st : CenterState) : CenterState :=
  { st with outdate := true }

/-- `center.draw(config)` (lines 90-162).  When `_outdate` holds, the
module calls `ajax(ajax_params())` and returns without drawing. -/
def draw (center_draw_check : Bool) (k_lines_exists : Bool)
    (kdata : List Candle) (st : CenterState) : DrawResult CenterState :=
  if center_draw_check = false then ⟨st, [], .idle⟩
  else if st.outdate = true then ⟨st, [], .fetch⟩
  else if k_lines_exists = false then ⟨st, [], .idle⟩
  else if kdata.length = 0 ∨ st.data.length = 0 then ⟨st, [], .idle⟩
  else
    let recs := centerScan kdata st.data 0 0 false
    let centers := recs.filter (fun r => r.start_id.isSome && r.end_id.isSome)
    ⟨{ st with data := recs },
      centers.map (fun r => ⟨r.start_id.getD 0, r.end_id.getD 0⟩), .idle⟩

/-- The `error` callback of `center.ajax` (lines 178-181):
`console.log(...); clear_table();`. -/
def ajax_error (st : CenterState) : CenterState × List UiAction :=
  (st, [.log, .clearTable])

/-- The `success` callback of `center.ajax` (lines 173-177):
`data(resp.data), table(); draw();`. -/
def ajax_success (resp : List CenterRec) (center_draw_check k_lines_exists : Bool)
    (kdata : List Candle) (st : CenterState) : DrawResult CenterState :=
  draw center_draw_check k_lines_exists kdata (data resp st)

end center

namespace parting

/-- `parting.data(input)` (`src/unnamed/part_001` 17-28). -/
def data (input : List PartingRec) (_st : PartingState) : PartingState :=
  { data := input, outdate := false }

/-- `parting.outdate()` (lines 99-101). -/
def outdate (st : PartingState) : PartingState :=
  { st with outdate := true }

/-- The `error` callback of `parting.ajax` (lines 92-95):
`console.log(...); clear_table();`. -/
def ajax_error (st : PartingState) : PartingState × List UiAction :=
  (st, [.log, .clearTable])

end parting

/-! ## The websocket dispatcher (`tanglism-draw.js`, `src/unnamed/part_002`) -/

/-- The display toggles read by `query()` (part_002 lines 176-212):
`#stroke_draw`, `#segment_draw`, `#subtrend_draw`, `#center_draw`.
`KLines` is always drawn (added unconditionally in `draw()`), and `MACD`
is always pushed by `query()`. -/
structure Toggles where
  stroke_draw : Bool
  segment_draw : Bool
  subtrend_draw : Bool
  center_draw : Bool
deriving Repr, DecidableEq

/-- One layer of the draw pass, in the z-order vocabulary of the spec. -/
inductive LayerTag where
  | centers
  | klines
  | strokes
  | segments
  | subtrends
  | macd
deriving Repr, DecidableEq

/-- Aggregate client state handled by the websocket dispatcher: the
candle array of the kline module plus the overlay module states.  (The
metric module is kept abstract; no claim concerns its records.) -/
structure WebState where
  kdata : List Candle
  stroke : StrokeState
  segment : SegmentState
  subtrend : SubtrendState
  center : CenterState
deriving Repr, DecidableEq

/-- One element of the `Data` payload dispatched by `prepare_data`
(part_002 lines 106-132), tagged by its `type` field.  The `MACD` branch
only touches the abstracted metric module and is omitted. -/
inductive Payload where
  | klines (l : List Candle)
  | strokes (l : List StrokeRec)
  | segments (l : List SegmentRec)
  | subtrends (l : List SubtrendRec)
  | centers (l : List CenterRec)
deriving Repr, DecidableEq

namespace tanglismDraw

/-- `prepare_data(dataset)` (part_002 lines 106-132): for each element,
replace the corresponding module's data.  Note that a `KLines` element
replaces only the candle array: no overlay module flag is touched. -/
def prepare_data : List Payload → WebState → WebState
  | [], ws => ws
  | p :: rest, ws =>
    prepare_data rest
      (match p with
       | .klines l => { ws with kdata := l }
       | .strokes l => { ws with stroke := stroke.data l ws.stroke }
       | .segments l => { ws with segment := segment.data l ws.segment }
       | .subtrends l => { ws with subtrend := subtrend.data l ws.subtrend }
       | .centers l => { ws with center := center.data l ws.center })

/-- `draw()` (part_002 lines 8-44): recreate the `#k_lines` svg, then
invoke the layer draws in source order, each guarded by membership of the
`objs` set — `Centers`, `KLines` (always), `Strokes`, `Segments`,
`SubTrends`, `MACD` (always).  The kline layer draws one rect per candle
at `x = i * bar_width`; the metric layer's emission is passed in as
`macdShapes` (abstract).  Returns the final module states and the tagged
shape stream in emission order. -/
def draw (t : Toggles) (ws : WebState) (macdShapes : List Shape) :
    WebState × List (LayerTag × Shape) :=
  let k_lines_exists := true
  let centerR :=
    if t.center_draw then
      center.draw t.center_draw k_lines_exists ws.kdata ws.center
    else ⟨ws.center, [], .idle⟩
  let klineShapes := (List.range ws.kdata.length).map (fun i => Shape.mk i i)
  let strokeR :=
    if t.stroke_draw then
      stroke.draw t.stroke_draw k_lines_exists ws.kdata ws.stroke
    else ⟨ws.stroke, [], .idle⟩
  let segmentR :=
    if t.segment_draw then
      segment.draw t.segment_draw k_lines_exists ws.kdata ws.segment
    else ⟨ws.segment, [], .idle⟩
  let subtrendR :=
    if t.subtrend_draw then
      subtrend.draw t.subtrend_draw k_lines_exists ws.kdata ws.subtrend
    else ⟨ws.subtrend, [], .idle⟩
  ({ kdata := ws.kdata, stroke := strokeR.state, segment := segmentR.state,
     subtrend := subtrendR.state, center := centerR.state },
   centerR.shapes.map (fun s => (LayerTag.centers, s)) ++
   klineShapes.map (fun s => (LayerTag.klines, s)) ++
   strokeR.shapes.map (fun s => (LayerTag.strokes, s)) ++
   segmentR.shapes.map (fun s => (LayerTag.segments, s)) ++
   subtrendR.shapes.map (fun s => (LayerTag.subtrends, s)) ++
   macdShapes.map (fun s => (LayerTag.macd, s)))

/-- The layer invocation order of one `draw()` pass, as a function of the
toggles: exactly the layers whose guard passes, in source order. -/
def drawPassLayers (t : Toggles) : List LayerTag :=
  (if t.center_draw then [LayerTag.centers] else []) ++
  [LayerTag.klines] ++
  (if t.stroke_draw then [LayerTag.strokes] else []) ++
  (if t.segment_draw then [LayerTag.segments] else []) ++
  (if t.subtrend_draw then [LayerTag.subtrends] else []) ++
  [LayerTag.macd]

end tanglismDraw

/-! ## Fuel adequacy: the matcher loops terminate within a computable budget -/

theorem strokeScanFuel_spec (kdata : List Candle) :
    ∀ (fuel : Nat) (recs : List StrokeRec) (si ki : Nat),
      recs.length - si + (kdata.length - ki) < fuel →
      strokeScanFuel kdata fuel recs si ki = some (strokeScan kdata recs si ki) := by
  intro fuel
  induction fuel with
  | zero =>
    intro recs si ki h
    exact absurd h (Nat.not_lt_zero _)
  | succ n ih =>
    intro recs si ki h
    simp only [strokeScanFuel]
    conv_rhs => rw [strokeScan]
    by_cases hg : si < recs.length ∧ ki < kdata.length
    · simp only [dif_pos hg]
      by_cases hs : (recs.get ⟨si, hg.1⟩).start_pt.extremum_ts = (kdata.get ⟨ki, hg.2⟩).ts
      · simp only [if_pos hs]
        exact ih _ _ _ (by simp only [List.length_set]; omega)
      · simp only [if_neg hs]
        by_cases he : (recs.get ⟨si, hg.1⟩).end_pt.extremum_ts = (kdata.get ⟨ki, hg.2⟩).ts
        · simp only [if_pos he]
          exact ih _ _ _ (by simp only [List.length_set]; omega)
        · simp only [if_neg he]
          exact ih _ _ _ (by omega)
    · simp only [dif_neg hg]

theorem subtrendScanFuel_spec (kdata : List Candle) :
    ∀ (fuel : Nat) (recs : List SubtrendRec) (si ki : Nat) (sm : Bool),
      2 * (recs.length - si) + (kdata.length - ki) + cond sm 0 1 < fuel →
      subtrendScanFuel kdata fuel recs si ki sm =
        some (subtrendScan kdata recs si ki sm) := by
  intro fuel
  induction fuel with
  | zero =>
    intro recs si ki sm h
    exact absurd h (Nat.not_lt_zero _)
  | succ n ih =>
    intro recs si ki sm h
    have hc01 : cond sm 0 1 = 0 ∨ cond sm 0 1 = 1 := by
      cases sm
      · right; rfl
      · left; rfl
    simp only [subtrendScanFuel]
    conv_rhs => rw [subtrendScan]
    by_cases hg : si < recs.length ∧ ki < kdata.length
    · simp only [dif_pos hg]
      by_cases hc : sm = false ∧
          (recs.get ⟨si, hg.1⟩).start_ts = (kdata.get ⟨ki, hg.2⟩).ts
      · simp only [if_pos hc]
        apply ih
        simp only [List.length_set, Bool.cond_true]
        rw [hc.1] at h
        simp only [Bool.cond_false] at h
        omega
      · simp only [if_neg hc]
        by_cases he : (recs.get ⟨si, hg.1⟩).end_ts = (kdata.get ⟨ki, hg.2⟩).ts
        · simp only [if_pos he]
          apply ih
          simp only [List.length_set, Bool.cond_false]
          rcases hc01 with h0 | h0 <;> omega
        · simp only [if_neg he]
          apply ih
          omega
    · simp only [dif_neg hg]

theorem centerScanFuel_spec (kdata : List Candle) :
    ∀ (fuel : Nat) (recs : List CenterRec) (ci ki : Nat) (sm : Bool),
      2 * (recs.length - ci) + (kdata.length - ki) + cond sm 0 1 < fuel →
      centerScanFuel kdata fuel recs ci ki sm =
        some (centerScan kdata recs ci ki sm) := by
  intro fuel
  induction fuel with
  | zero =>
    intro recs ci ki sm h
    exact absurd h (Nat.not_lt_zero _)
  | succ n ih =>
    intro recs ci ki sm h
    have hc01 : cond sm 0 1 = 0 ∨ cond sm 0 1 = 1 := by
      cases sm
      · right; rfl
      · left; rfl
    simp only [centerScanFuel]
    conv_rhs => rw [centerScan]
    by_cases hg : ci < recs.length ∧ ki < kdata.length
    · simp only [dif_pos hg]
      by_cases hc : sm = false ∧
          (recs.get ⟨ci, hg.1⟩).start_ts = (kdata.get ⟨ki, hg.2⟩).ts
      · simp only [if_pos hc]
        apply ih
        simp only [List.length_set, Bool.cond_true]
        rw [hc.1] at h
        simp only [Bool.cond_false] at h
        omega
      · simp only [if_neg hc]
        by_cases he : (recs.get ⟨ci, hg.1⟩).end_ts = (kdata.get ⟨ki, hg.2⟩).ts
        · simp only [if_pos he]
          apply ih
          simp only [List.length_set, Bool.cond_false]
          rcases hc01 with h0 | h0 <;> omega
        · simp only [if_neg he]
          apply ih
          omega
    · simp only [dif_neg hg]

/-! ## Chain adjacency -/

theorem strokeChain_adj :
    ∀ (l : List StrokeRec), StrokeChain l →
      ∀ (i : Nat) (a b : StrokeRec), l[i]? = some a → l[i + 1]? = some b →
        a.end_pt.extremum_ts = b.start_pt.extremum_ts := by
  intro l
  induction l with
  | nil =>
    intro _ i a b ha _
    simp at ha
  | cons x xs ih =>
    intro hchain i a b ha hb
    cases xs with
    | nil =>
      cases i with
      | zero => simp at hb
      | succ j => simp at hb
    | cons y ys =>
      cases i with
      | zero =>
        simp only [List.getElem?_cons_zero, Option.some.injEq] at ha
        simp only [List.getElem?_cons_succ, List.getElem?_cons_zero,
          Option.some.injEq] at hb
        subst ha
        subst hb
        exact hchain.1
      | succ j =>
        rw [List.getElem?_cons_succ] at ha hb
        exact ih hchain.2 j a b ha hb

theorem centerChain_adj :
    ∀ (l : List CenterRec), CenterChain l →
      ∀ (i : Nat) (a b : CenterRec), l[i]? = some a → l[i + 1]? = some b →
        a.end_ts = b.start_ts := by
  intro l
  induction l with
  | nil =>
    intro _ i a b ha _
    simp at ha
  | cons x xs ih =>
    intro hchain i a b ha hb
    cases xs with
    | nil =>
      cases i with
      | zero => simp at hb
      | succ j => simp at hb
    | cons y ys =>
      cases i with
      | zero =>
        simp only [List.getElem?_cons_zero, Option.some.injEq] at ha
        simp only [List.getElem?_cons_succ, List.getElem?_cons_zero,
          Option.some.injEq] at hb
        subst ha
        subst hb
        exact hchain.1
      | succ j =>
        rw [List.getElem?_cons_succ] at ha hb
        exact ih hchain.2 j a b ha hb

/-! ## Staleness propagation -/

/-- The five overlay module states bundled, one per pattern kind. -/
structure OverlayStates where
  parting : PartingState
  stroke : StrokeState
  segment : SegmentState
  subtrend : SubtrendState
  center : CenterState
deriving Repr, DecidableEq

/-- Modelled from the spec: the StalenessTracker dispatcher that invokes
every overlay module's `outdate()` whenever the CandleSeries is replaced
(§2 "any CandleSeries replacement invalidates every OverlayDataset", §4.4
"On CandleSeries replace: run all dataCallbacks in registration order
(marks every overlay outdated)").  The per-module `outdate()` functions
applied here are embedded from the sources; the wiring that registers
them via `kline.add_data_callback` and runs them on kline replacement is
not among the provided files. -/
def markAllOutdated (s : OverlayStates) : OverlayStates :=
  { parting := parting.outdate s.parting
    stroke := stroke.outdate s.stroke
    segment := segment.outdate s.segment
    subtrend := subtrend.outdate s.subtrend
    center := center.outdate s.center }

/-! ## Spec-described matcher variants, for comparison with the code

The following two definitions are transcribed from the words of the
specification (not from the sources); each is compared against the
corresponding source matcher. -/

/-- Modelled from the spec: the chained-variant step behavior that §4.2
ascribes to all chained matchers, applied to the stroke records of
`stroke.draw` — a start match records `start_id = ki`, sets
`startMatched`, and does *not* advance `ki`; an end match records
`end_id = ki`, advances the segment cursor, resets the flag, and does not
advance `ki`.  (This is the structure the sub-trend and center sources
use; `stroke.draw` itself advances `ki` on a start match.) -/
def specChainedScan (kdata : List Candle) (recs : List StrokeRec)
    (si ki : Nat) (startMatched : Bool) : List StrokeRec :=
  if h : si < recs.length ∧ ki < kdata.length then
    if startMatched = false ∧
        (recs.get ⟨si, h.1⟩).start_pt.extremum_ts = (kdata.get ⟨ki, h.2⟩).ts then
      specChainedScan kdata
        (recs.set si { recs.get ⟨si, h.1⟩ with start_id := some ki }) si ki true
    else if (recs.get ⟨si, h.1⟩).end_pt.extremum_ts = (kdata.get ⟨ki, h.2⟩).ts then
      specChainedScan kdata
        (recs.set si { recs.get ⟨si, h.1⟩ with end_id := some ki }) (si + 1) ki false
    else
      specChainedScan kdata recs si (ki + 1) startMatched
  else
    recs
termination_by (recs.length - si, kdata.length - ki, cond startMatched 0 1)
decreasing_by
  · simp only [List.length_set]
    rename_i hcond
    exact Prod.Lex.right _ (Prod.Lex.right _ (by simp [hcond.1]))
  · simp only [List.length_set]
    exact Prod.Lex.left _ _ (by omega)
  · exact Prod.Lex.right _ (Prod.Lex.left _ _ (by omega))

/-- Modelled from the spec: the scan behavior claim C5 ascribes to
`center.draw` — matching each center's start and end independently,
"without the reuse-ki shortcut", advancing the candle cursor on every
iteration, so the cursor is never held at a matched candle.  (The center
source instead holds `ki` on both matching branches.) -/
def specCenterScanNoReuse (kdata : List Candle) (recs : List CenterRec)
    (ci ki : Nat) (start_match : Bool) : List CenterRec :=
  if h : ci < recs.length ∧ ki < kdata.length then
    if start_match = false ∧
        (recs.get ⟨ci, h.1⟩).start_ts = (kdata.get ⟨ki, h.2⟩).ts then
      specCenterScanNoReuse kdata
        (recs.set ci { recs.get ⟨ci, h.1⟩ with start_id := some ki }) ci (ki + 1) true
    else if (recs.get ⟨ci, h.1⟩).end_ts = (kdata.get ⟨ki, h.2⟩).ts then
      specCenterScanNoReuse kdata
        (recs.set ci { recs.get ⟨ci, h.1⟩ with end_id := some ki }) (ci + 1) (ki + 1) false
    else
      specCenterScanNoReuse kdata recs ci (ki + 1) start_match
  else
    recs
termination_by kdata.length - ki
decreasing_by
  · omega
  · omega
  · omega

/-- Fuel-indexed replay of `specChainedScan`. -/
def specChainedScanFuel (kdata : List Candle) :
    Nat → List StrokeRec → Nat → Nat → Bool → Option (List StrokeRec)
  | 0, _, _, _, _ => none
  | fuel + 1, recs, si, ki, startMatched =>
    if h : si < recs.length ∧ ki < kdata.length then
      if startMatched = false ∧
          (recs.get ⟨si, h.1⟩).start_pt.extremum_ts = (kdata.get ⟨ki, h.2⟩).ts then
        specChainedScanFuel kdata fuel
          (recs.set si { recs.get ⟨si, h.1⟩ with start_id := some ki }) si ki true
      else if (recs.get ⟨si, h.1⟩).end_pt.extremum_ts = (kdata.get ⟨ki, h.2⟩).ts then
        specChainedScanFuel kdata fuel
          (recs.set si { recs.get ⟨si, h.1⟩ with end_id := some ki }) (si + 1) ki false
      else
        specChainedScanFuel kdata fuel recs si (ki + 1) startMatched
    else
      some recs

theorem specChainedScanFuel_spec (kdata : List Candle) :
    ∀ (fuel : Nat) (recs : List StrokeRec) (si ki : Nat) (sm : Bool),
      2 * (recs.length - si) + (kdata.length - ki) + cond sm 0 1 < fuel →
      specChainedScanFuel kdata fuel recs si ki sm =
        some (specChainedScan kdata recs si ki sm) := by
  intro fuel
  induction fuel with
  | zero =>
    intro recs si ki sm h
    exact absurd h (Nat.not_lt_zero _)
  | succ n ih =>
    intro recs si ki sm h
    have hc01 : cond sm 0 1 = 0 ∨ cond sm 0 1 = 1 := by
      cases sm
      · right; rfl
      · left; rfl
    simp only [specChainedScanFuel]
    conv_rhs => rw [specChainedScan]
    by_cases hg : si < recs.length ∧ ki < kdata.length
    · simp only [dif_pos hg]
      by_cases hc : sm = false ∧
          (recs.get ⟨si, hg.1⟩).start_pt.extremum_ts = (kdata.get ⟨ki, hg.2⟩).ts
      · simp only [if_pos hc]
        apply ih
        simp only [List.length_set, Bool.cond_true]
        rw [hc.1] at h
        simp only [Bool.cond_false] at h
        omega
      · simp only [if_neg hc]
        by_cases he : (recs.get ⟨si, hg.1⟩).end_pt.extremum_ts = (kdata.get ⟨ki, hg.2⟩).ts
        · simp only [if_pos he]
          apply ih
          simp only [List.length_set, Bool.cond_false]
          rcases hc01 with h0 | h0 <;> omega
        · simp only [if_neg he]
          apply ih
          omega
    · simp only [dif_neg hg]

/-- Fuel-indexed replay of `specCenterScanNoReuse`. -/
def specCenterScanNoReuseFuel (kdata : List Candle) :
    Nat → List CenterRec → Nat → Nat → Bool → Option (List CenterRec)
  | 0, _, _, _, _ => none
  | fuel + 1, recs, ci, ki, start_match =>
    if h : ci < recs.length ∧ ki < kdata.length then
      if start_match = false ∧
          (recs.get ⟨ci, h.1⟩).start_ts = (kdata.get ⟨ki, h.2⟩).ts then
        specCenterScanNoReuseFuel kdata fuel
          (recs.set ci { recs.get ⟨ci, h.1⟩ with start_id := some ki }) ci (ki + 1) true
      else if (recs.get ⟨ci, h.1⟩).end_ts = (kdata.get ⟨ki, h.2⟩).ts then
        specCenterScanNoReuseFuel kdata fuel
          (recs.set ci { recs.get ⟨ci, h.1⟩ with end_id := some ki }) (ci + 1) (ki + 1) false
      else
        specCenterScanNoReuseFuel kdata fuel recs ci (ki + 1) start_match
    else
      some recs

theorem specCenterScanNoReuseFuel_spec (kdata : List Candle) :
    ∀ (fuel : Nat) (recs : List CenterRec) (ci ki : Nat) (sm : Bool),
      kdata.length - ki < fuel →
      specCenterScanNoReuseFuel kdata fuel recs ci ki sm =
        some (specCenterScanNoReuse kdata recs ci ki sm) := by
  intro fuel
  induction fuel with
  | zero =>
    intro recs ci ki sm h
    exact absurd h (Nat.not_lt_zero _)
  | succ n ih =>
    intro recs ci ki sm h
    simp only [specCenterScanNoReuseFuel]
    conv_rhs => rw [specCenterScanNoReuse]
    by_cases hg : ci < recs.length ∧ ki < kdata.length
    · simp only [dif_pos hg]
      by_cases hc : sm = false ∧
          (recs.get ⟨ci, hg.1⟩).start_ts = (kdata.get ⟨ki, hg.2⟩).ts
      · simp only [if_pos hc]
        exact ih _ _ _ _ (by omega)
      · simp only [if_neg hc]
        by_cases he : (recs.get ⟨ci, hg.1⟩).end_ts = (kdata.get ⟨ki, hg.2⟩).ts
        · simp only [if_pos he]
          exact ih _ _ _ _ (by omega)
        · simp only [if_neg he]
          exact ih _ _ _ _ (by omega)
    · simp only [dif_neg hg]

/-! ## Claim theorems -/

/-- C1, counterexample to the claim as stated: with strictly increasing
candles at timestamps 0,1,2,4,5,6 and the chained ascending stroke list
(0→1), (1→3), (3→5), (5→6), the fourth stroke's boundary timestamps 5 and
6 both occur in the candle sequence, yet `stroke.draw`'s matcher leaves
that stroke entirely unresolved: the scan exhausts the candle cursor
searching for the absent end timestamp 3 of the second stroke, so no
`start_id`/`end_id` is ever assigned to the last two strokes. -/
theorem claim_C1_counterexample :
    StrictCandles
      [⟨0,0,0,0,0⟩, ⟨1,0,0,0,0⟩, ⟨2,0,0,0,0⟩, ⟨4,0,0,0,0⟩, ⟨5,0,0,0,0⟩, ⟨6,0,0,0,0⟩] ∧
    StrokeChain
      [⟨⟨0,0⟩,⟨1,0⟩,none,none⟩, ⟨⟨1,0⟩,⟨3,0⟩,none,none⟩,
       ⟨⟨3,0⟩,⟨5,0⟩,none,none⟩, ⟨⟨5,0⟩,⟨6,0⟩,none,none⟩] ∧
    (∀ r ∈ ([⟨⟨0,0⟩,⟨1,0⟩,none,none⟩, ⟨⟨1,0⟩,⟨3,0⟩,none,none⟩,
       ⟨⟨3,0⟩,⟨5,0⟩,none,none⟩, ⟨⟨5,0⟩,⟨6,0⟩,none,none⟩] : List StrokeRec),
      r.start_pt.extremum_ts < r.end_pt.extremum_ts) ∧
    ((5 : Nat) ∈ tsList
      [⟨0,0,0,0,0⟩, ⟨1,0,0,0,0⟩, ⟨2,0,0,0,0⟩, ⟨4,0,0,0,0⟩, ⟨5,0,0,0,0⟩, ⟨6,0,0,0,0⟩] ∧
     (6 : Nat) ∈ tsList
      [⟨0,0,0,0,0⟩, ⟨1,0,0,0,0⟩, ⟨2,0,0,0,0⟩, ⟨4,0,0,0,0⟩, ⟨5,0,0,0,0⟩, ⟨6,0,0,0,0⟩]) ∧
    strokeScan
      [⟨0,0,0,0,0⟩, ⟨1,0,0,0,0⟩, ⟨2,0,0,0,0⟩, ⟨4,0,0,0,0⟩, ⟨5,0,0,0,0⟩, ⟨6,0,0,0,0⟩]
      [⟨⟨0,0⟩,⟨1,0⟩,none,none⟩, ⟨⟨1,0⟩,⟨3,0⟩,none,none⟩,
       ⟨⟨3,0⟩,⟨5,0⟩,none,none⟩, ⟨⟨5,0⟩,⟨6,0⟩,none,none⟩] 0 0 =
      [⟨⟨0,0⟩,⟨1,0⟩,some 0,some 1⟩, ⟨⟨1,0⟩,⟨3,0⟩,some 1,none⟩,
       ⟨⟨3,0⟩,⟨5,0⟩,none,none⟩, ⟨⟨5,0⟩,⟨6,0⟩,none,none⟩] := by
  refine ⟨by decide, by decide, by decide, ⟨by decide, by decide⟩, ?_⟩
  have h1 := strokeScanFuel_spec
    [⟨0,0,0,0,0⟩, ⟨1,0,0,0,0⟩, ⟨2,0,0,0,0⟩, ⟨4,0,0,0,0⟩, ⟨5,0,0,0,0⟩, ⟨6,0,0,0,0⟩]
    20
    [⟨⟨0,0⟩,⟨1,0⟩,none,none⟩, ⟨⟨1,0⟩,⟨3,0⟩,none,none⟩,
     ⟨⟨3,0⟩,⟨5,0⟩,none,none⟩, ⟨⟨5,0⟩,⟨6,0⟩,none,none⟩] 0 0 (by decide)
  have h2 : strokeScanFuel
      [⟨0,0,0,0,0⟩, ⟨1,0,0,0,0⟩, ⟨2,0,0,0,0⟩, ⟨4,0,0,0,0⟩, ⟨5,0,0,0,0⟩, ⟨6,0,0,0,0⟩]
      20
      [⟨⟨0,0⟩,⟨1,0⟩,none,none⟩, ⟨⟨1,0⟩,⟨3,0⟩,none,none⟩,
       ⟨⟨3,0⟩,⟨5,0⟩,none,none⟩, ⟨⟨5,0⟩,⟨6,0⟩,none,none⟩] 0 0 =
      some [⟨⟨0,0⟩,⟨1,0⟩,some 0,some 1⟩, ⟨⟨1,0⟩,⟨3,0⟩,some 1,none⟩,
       ⟨⟨3,0⟩,⟨5,0⟩,none,none⟩, ⟨⟨5,0⟩,⟨6,0⟩,none,none⟩] := by decide
  exact Option.some.inj (h1.symm.trans h2)

/-- C1 (amended): for every strictly increasing candle sequence and every
chronologically chained, ascending stroke list *all* of whose boundary
timestamps occur in the candle sequence, the `stroke.draw` matcher
resolves every stroke: it annotates each record with exactly the candle
positions of its boundary timestamps, so `start_id < end_id`,
`C[start_id].ts` equals the start timestamp, and `C[end_id].ts` equals
the end timestamp.  (The original claim quantified per-segment presence
only; the counterexample shows an earlier segment's absent boundary can
strand the scan, so presence of the whole chain is required.) -/
theorem claim_C1_alignment (kdata : List Candle) (recs : List StrokeRec)
    (hmono : StrictCandles kdata) (hchain : StrokeChain recs)
    (hasc : ∀ r ∈ recs, r.start_pt.extremum_ts < r.end_pt.extremum_ts)
    (hpres : ∀ r ∈ recs, r.start_pt.extremum_ts ∈ tsList kdata ∧
      r.end_pt.extremum_ts ∈ tsList kdata) :
    strokeScan kdata recs 0 0 = recs.map (strokeAnnot kdata) ∧
    ∀ r ∈ recs, ∃ p q, ∃ (hp : p < kdata.length) (hq : q < kdata.length),
      (strokeAnnot kdata r).start_id = some p ∧
      (strokeAnnot kdata r).end_id = some q ∧ p < q ∧
      (kdata.get ⟨p, hp⟩).ts = r.start_pt.extremum_ts ∧
      (kdata.get ⟨q, hq⟩).ts = r.end_pt.extremum_ts := by
  constructor
  · rw [strokeScan_eq_segs kdata recs 0 0 (Nat.zero_le _)]
    simp only [List.take_zero, List.drop_zero, List.nil_append]
    exact strokeSegs_all_present kdata hmono recs 0 hchain hasc hpres
      (fun r _ => Nat.zero_le _)
  · intro r hr
    have hs := (hpres r hr).1
    have he := (hpres r hr).2
    refine ⟨tsIndex kdata r.start_pt.extremum_ts, tsIndex kdata r.end_pt.extremum_ts,
      tsIndex_lt_length hs, tsIndex_lt_length he, rfl, rfl,
      tsIndex_mono hmono hs he (hasc r hr), ts_get_tsIndex hs, ts_get_tsIndex he⟩

/-- Scenario A witness for C1: candles at timestamps 0,1,2,3,4 and one
stroke from 1 to 3 yield `start_id = 1`, `end_id = 3`. -/
theorem claim_C1_witness :
    strokeScan
      [⟨0,0,0,0,0⟩, ⟨1,0,0,0,0⟩, ⟨2,0,0,0,0⟩, ⟨3,0,0,0,0⟩, ⟨4,0,0,0,0⟩]
      [⟨⟨1,0⟩,⟨3,0⟩,none,none⟩] 0 0 =
      [⟨⟨1,0⟩,⟨3,0⟩,some 1,some 3⟩] := by
  have h := (claim_C1_alignment
    [⟨0,0,0,0,0⟩, ⟨1,0,0,0,0⟩, ⟨2,0,0,0,0⟩, ⟨3,0,0,0,0⟩, ⟨4,0,0,0,0⟩]
    [⟨⟨1,0⟩,⟨3,0⟩,none,none⟩]
    (by decide) (by decide) (by decide) (by decide)).1
  rw [h]
  decide

/-- C6, counterexample to the exact-cardinality part of the claim: on the
chain (0→1), (1→3), (3→5), (5→6) over candles 0,1,2,4,5,6, exactly two
segments have an absent boundary timestamp (end 3 and start 3), yet the
matched output holds only one segment, not 4 − 2 = 2: the stroke (5→6),
both of whose boundaries are present, is also lost because the scan
exhausted the candles searching for the absent timestamp 3. -/
theorem claim_C6_counterexample :
    (∀ r ∈ ([⟨⟨0,0⟩,⟨1,0⟩,none,none⟩, ⟨⟨1,0⟩,⟨3,0⟩,none,none⟩,
       ⟨⟨3,0⟩,⟨5,0⟩,none,none⟩, ⟨⟨5,0⟩,⟨6,0⟩,none,none⟩] : List StrokeRec),
      r.start_id = none ∧ r.end_id = none) ∧
    StrokeChain
      [⟨⟨0,0⟩,⟨1,0⟩,none,none⟩, ⟨⟨1,0⟩,⟨3,0⟩,none,none⟩,
       ⟨⟨3,0⟩,⟨5,0⟩,none,none⟩, ⟨⟨5,0⟩,⟨6,0⟩,none,none⟩] ∧
    StrictCandles
      [⟨0,0,0,0,0⟩, ⟨1,0,0,0,0⟩, ⟨2,0,0,0,0⟩, ⟨4,0,0,0,0⟩, ⟨5,0,0,0,0⟩, ⟨6,0,0,0,0⟩] ∧
    ([⟨⟨0,0⟩,⟨1,0⟩,none,none⟩, ⟨⟨1,0⟩,⟨3,0⟩,none,none⟩,
      ⟨⟨3,0⟩,⟨5,0⟩,none,none⟩, ⟨⟨5,0⟩,⟨6,0⟩,none,none⟩] : List StrokeRec).countP
      (fun r => !(decide (r.start_pt.extremum_ts ∈ tsList
          [⟨0,0,0,0,0⟩, ⟨1,0,0,0,0⟩, ⟨2,0,0,0,0⟩, ⟨4,0,0,0,0⟩, ⟨5,0,0,0,0⟩, ⟨6,0,0,0,0⟩]) &&
        decide (r.end_pt.extremum_ts ∈ tsList
          [⟨0,0,0,0,0⟩, ⟨1,0,0,0,0⟩, ⟨2,0,0,0,0⟩, ⟨4,0,0,0,0⟩, ⟨5,0,0,0,0⟩, ⟨6,0,0,0,0⟩]))) = 2 ∧
    ((strokeScan
        [⟨0,0,0,0,0⟩, ⟨1,0,0,0,0⟩, ⟨2,0,0,0,0⟩, ⟨4,0,0,0,0⟩, ⟨5,0,0,0,0⟩, ⟨6,0,0,0,0⟩]
        [⟨⟨0,0⟩,⟨1,0⟩,none,none⟩, ⟨⟨1,0⟩,⟨3,0⟩,none,none⟩,
         ⟨⟨3,0⟩,⟨5,0⟩,none,none⟩, ⟨⟨5,0⟩,⟨6,0⟩,none,none⟩] 0 0).filter
      (fun r => r.start_id.isSome && r.end_id.isSome)).length = 1 ∧
    ((strokeScan
        [⟨0,0,0,0,0⟩, ⟨1,0,0,0,0⟩, ⟨2,0,0,0,0⟩, ⟨4,0,0,0,0⟩, ⟨5,0,0,0,0⟩, ⟨6,0,0,0,0⟩]
        [⟨⟨0,0⟩,⟨1,0⟩,none,none⟩, ⟨⟨1,0⟩,⟨3,0⟩,none,none⟩,
         ⟨⟨3,0⟩,⟨5,0⟩,none,none⟩, ⟨⟨5,0⟩,⟨6,0⟩,none,none⟩] 0 0).filter
      (fun r => r.start_id.isSome && r.end_id.isSome)).length ≠ 4 - 2 := by
  have h1 := strokeScanFuel_spec
    [⟨0,0,0,0,0⟩, ⟨1,0,0,0,0⟩, ⟨2,0,0,0,0⟩, ⟨4,0,0,0,0⟩, ⟨5,0,0,0,0⟩, ⟨6,0,0,0,0⟩]
    20
    [⟨⟨0,0⟩,⟨1,0⟩,none,none⟩, ⟨⟨1,0⟩,⟨3,0⟩,none,none⟩,
     ⟨⟨3,0⟩,⟨5,0⟩,none,none⟩, ⟨⟨5,0⟩,⟨6,0⟩,none,none⟩] 0 0 (by decide)
  have h2 : strokeScanFuel
      [⟨0,0,0,0,0⟩, ⟨1,0,0,0,0⟩, ⟨2,0,0,0,0⟩, ⟨4,0,0,0,0⟩, ⟨5,0,0,0,0⟩, ⟨6,0,0,0,0⟩]
      20
      [⟨⟨0,0⟩,⟨1,0⟩,none,none⟩, ⟨⟨1,0⟩,⟨3,0⟩,none,none⟩,
       ⟨⟨3,0⟩,⟨5,0⟩,none,none⟩, ⟨⟨5,0⟩,⟨6,0⟩,none,none⟩] 0 0 =
      some [⟨⟨0,0⟩,⟨1,0⟩,some 0,some 1⟩, ⟨⟨1,0⟩,⟨3,0⟩,some 1,none⟩,
       ⟨⟨3,0⟩,⟨5,0⟩,none,none⟩, ⟨⟨5,0⟩,⟨6,0⟩,none,none⟩] := by decide
  have heval := Option.some.inj (h1.symm.trans h2)
  refine ⟨by decide, by decide, by decide, by decide, ?_, ?_⟩
  · rw [heval]
    decide
  · rw [heval]
    decide

/-- C6 (amended): every stroke whose start or end timestamp is absent
from the candle sequence is omitted from the matched output (a record can
carry an id annotation only for a timestamp that occurs in the candles,
so the both-annotations filter excludes it), the scan is a total function
(no exception path exists), and the output cardinality is at *most* the
input cardinality minus the number of absent-boundary strokes.  (The
original claim's exact cardinality and "no other segment is affected" are
refuted by the counterexample.) -/
theorem claim_C6_exclusion (kdata : List Candle) (recs : List StrokeRec)
    (hfresh : ∀ r ∈ recs, r.start_id = none ∧ r.end_id = none) :
    (∀ r' ∈ (strokeScan kdata recs 0 0).filter
        (fun r => r.start_id.isSome && r.end_id.isSome),
      r'.start_pt.extremum_ts ∈ tsList kdata ∧
      r'.end_pt.extremum_ts ∈ tsList kdata) ∧
    ((strokeScan kdata recs 0 0).filter
        (fun r => r.start_id.isSome && r.end_id.isSome)).length +
      recs.countP (fun r => !(decide (r.start_pt.extremum_ts ∈ tsList kdata) &&
        decide (r.end_pt.extremum_ts ∈ tsList kdata))) ≤ recs.length := by
  have hbr : strokeScan kdata recs 0 0 = strokeSegs kdata recs 0 := by
    rw [strokeScan_eq_segs kdata recs 0 0 (Nat.zero_le _)]
    simp
  have hsound : ∀ r' ∈ strokeSegs kdata recs 0, AnnotSound kdata r' := by
    apply strokeSegs_sound
    intro r hr
    refine ⟨fun hsm => ?_, fun hsm => ?_⟩
    · rw [(hfresh r hr).1] at hsm
      simp at hsm
    · rw [(hfresh r hr).2] at hsm
      simp at hsm
  constructor
  · intro r' hr'
    rw [hbr] at hr'
    have hmem := List.mem_of_mem_filter hr'
    have hprop := List.of_mem_filter hr'
    simp only [Bool.and_eq_true] at hprop
    exact ⟨(hsound r' hmem).1 hprop.1, (hsound r' hmem).2 hprop.2⟩
  · rw [hbr]
    have hlen := strokeSegs_length kdata recs 0
    have hfilter : ((strokeSegs kdata recs 0).filter
        (fun r => r.start_id.isSome && r.end_id.isSome)).length =
        (strokeSegs kdata recs 0).countP
          (fun r => r.start_id.isSome && r.end_id.isSome) :=
      (List.countP_eq_length_filter _ _).symm
    have hcount : (strokeSegs kdata recs 0).countP
        (fun r => !(decide (r.start_pt.extremum_ts ∈ tsList kdata) &&
          decide (r.end_pt.extremum_ts ∈ tsList kdata))) =
        recs.countP (fun r => !(decide (r.start_pt.extremum_ts ∈ tsList kdata) &&
          decide (r.end_pt.extremum_ts ∈ tsList kdata))) := by
      have hmap := strokeSegs_pts kdata recs 0
      have hone := List.countP_map (fun pr : StrokePt × StrokePt =>
          !(decide (pr.1.extremum_ts ∈ tsList kdata) &&
            decide (pr.2.extremum_ts ∈ tsList kdata)))
        (fun r : StrokeRec => (r.start_pt, r.end_pt)) (strokeSegs kdata recs 0)
      have htwo := List.countP_map (fun pr : StrokePt × StrokePt =>
          !(decide (pr.1.extremum_ts ∈ tsList kdata) &&
            decide (pr.2.extremum_ts ∈ tsList kdata)))
        (fun r : StrokeRec => (r.start_pt, r.end_pt)) recs
      rw [hmap] at hone
      exact hone.symm.trans htwo
    have hdisj := countP_disjoint_le
      (fun r : StrokeRec => r.start_id.isSome && r.end_id.isSome)
      (fun r : StrokeRec => !(decide (r.start_pt.extremum_ts ∈ tsList kdata) &&
        decide (r.end_pt.extremum_ts ∈ tsList kdata)))
      (strokeSegs kdata recs 0)
      (by
        intro a ha hcontra
        obtain ⟨hb, habs⟩ := hcontra
        simp only [Bool.and_eq_true] at hb
        have hp1 := (hsound a ha).1 hb.1
        have hp2 := (hsound a ha).2 hb.2
        simp [hp1, hp2] at habs)
    omega

/-- Scenario B witness for C6: candles at timestamps 0,1,2,3,4 and one
stroke whose start timestamp 9 is absent from the candles; the matched
output is bounded by 1 − 1 = 0 records and contains only boundary
timestamps present in the candles (vacuously). -/
theorem claim_C6_witness :
    (∀ r ∈ ([⟨⟨9,0⟩,⟨3,0⟩,none,none⟩] : List StrokeRec),
      r.start_id = none ∧ r.end_id = none) ∧
    ((∀ r' ∈ (strokeScan
        [⟨0,0,0,0,0⟩, ⟨1,0,0,0,0⟩, ⟨2,0,0,0,0⟩, ⟨3,0,0,0,0⟩, ⟨4,0,0,0,0⟩]
        [⟨⟨9,0⟩,⟨3,0⟩,none,none⟩] 0 0).filter
        (fun r => r.start_id.isSome && r.end_id.isSome),
      r'.start_pt.extremum_ts ∈ tsList
        [⟨0,0,0,0,0⟩, ⟨1,0,0,0,0⟩, ⟨2,0,0,0,0⟩, ⟨3,0,0,0,0⟩, ⟨4,0,0,0,0⟩] ∧
      r'.end_pt.extremum_ts ∈ tsList
        [⟨0,0,0,0,0⟩, ⟨1,0,0,0,0⟩, ⟨2,0,0,0,0⟩, ⟨3,0,0,0,0⟩, ⟨4,0,0,0,0⟩]) ∧
    ((strokeScan
        [⟨0,0,0,0,0⟩, ⟨1,0,0,0,0⟩, ⟨2,0,0,0,0⟩, ⟨3,0,0,0,0⟩, ⟨4,0,0,0,0⟩]
        [⟨⟨9,0⟩,⟨3,0⟩,none,none⟩] 0 0).filter
        (fun r => r.start_id.isSome && r.end_id.isSome)).length +
      ([⟨⟨9,0⟩,⟨3,0⟩,none,none⟩] : List StrokeRec).countP
        (fun r => !(decide (r.start_pt.extremum_ts ∈ tsList
            [⟨0,0,0,0,0⟩, ⟨1,0,0,0,0⟩, ⟨2,0,0,0,0⟩, ⟨3,0,0,0,0⟩, ⟨4,0,0,0,0⟩]) &&
          decide (r.end_pt.extremum_ts ∈ tsList
            [⟨0,0,0,0,0⟩, ⟨1,0,0,0,0⟩, ⟨2,0,0,0,0⟩, ⟨3,0,0,0,0⟩, ⟨4,0,0,0,0⟩]))) ≤ 1) :=
  ⟨by decide,
   claim_C6_exclusion
     [⟨0,0,0,0,0⟩, ⟨1,0,0,0,0⟩, ⟨2,0,0,0,0⟩, ⟨3,0,0,0,0⟩, ⟨4,0,0,0,0⟩]
     [⟨⟨9,0⟩,⟨3,0⟩,none,none⟩] (by decide)⟩

/-- Helper: the stroke matcher, started from the top of both sequences,
annotates a chained fully-present stroke list with boundary positions. -/
theorem strokeScan_map_annot (kdata : List Candle) (recs : List StrokeRec)
    (hmono : StrictCandles kdata) (hchain : StrokeChain recs)
    (hasc : ∀ r ∈ recs, r.start_pt.extremum_ts < r.end_pt.extremum_ts)
    (hpres : ∀ r ∈ recs, r.start_pt.extremum_ts ∈ tsList kdata ∧
      r.end_pt.extremum_ts ∈ tsList kdata) :
    strokeScan kdata recs 0 0 = recs.map (strokeAnnot kdata) := by
  rw [strokeScan_eq_segs kdata recs 0 0 (Nat.zero_le _)]
  simp only [List.take_zero, List.drop_zero, List.nil_append]
  exact strokeSegs_all_present kdata hmono recs 0 hchain hasc hpres
    (fun r _ => Nat.zero_le _)

/-- Helper: the center matcher, started from the top with the flag down,
annotates a chained fully-present center list with boundary positions. -/
theorem centerScan_map_annot (kdata : List Candle) (recs : List CenterRec)
    (hmono : StrictCandles kdata) (hchain : CenterChain recs)
    (hasc : ∀ r ∈ recs, r.start_ts < r.end_ts)
    (hpres : ∀ r ∈ recs, r.start_ts ∈ tsList kdata ∧ r.end_ts ∈ tsList kdata) :
    centerScan kdata recs 0 0 false = recs.map (centerAnnot kdata) := by
  rw [centerScan_eq_segs kdata recs 0 0 false (Nat.zero_le _)]
  simp only [List.take_zero, List.drop_zero, List.nil_append]
  exact centerSegs_all_present kdata hmono recs 0 hchain hasc hpres
    (fun r _ => Nat.zero_le _)

/-- C4, counterexample to "a start match does not advance ki" for the
stroke variant: on a single candle with timestamp 5 and one stroke whose
start and end timestamps are both 5, `stroke.draw`'s loop records
`start_id = 0` and advances `ki` past the only candle, so the end is
never matched — whereas the behavior the claim describes (hold `ki` with
a `startMatched` flag, transcribed as `specChainedScan`) finds the end at
the same candle. -/
theorem claim_C4_counterexample :
    strokeScan [⟨5,0,0,0,0⟩] [⟨⟨5,0⟩,⟨5,0⟩,none,none⟩] 0 0 =
      [⟨⟨5,0⟩,⟨5,0⟩,some 0,none⟩] ∧
    specChainedScan [⟨5,0,0,0,0⟩] [⟨⟨5,0⟩,⟨5,0⟩,none,none⟩] 0 0 false =
      [⟨⟨5,0⟩,⟨5,0⟩,some 0,some 0⟩] ∧
    strokeScan [⟨5,0,0,0,0⟩] [⟨⟨5,0⟩,⟨5,0⟩,none,none⟩] 0 0 ≠
      specChainedScan [⟨5,0,0,0,0⟩] [⟨⟨5,0⟩,⟨5,0⟩,none,none⟩] 0 0 false := by
  have h1 := strokeScanFuel_spec [⟨5,0,0,0,0⟩] 5 [⟨⟨5,0⟩,⟨5,0⟩,none,none⟩] 0 0
    (by decide)
  have h2 : strokeScanFuel [⟨5,0,0,0,0⟩] 5 [⟨⟨5,0⟩,⟨5,0⟩,none,none⟩] 0 0 =
      some [⟨⟨5,0⟩,⟨5,0⟩,some 0,none⟩] := by decide
  have heval1 := Option.some.inj (h1.symm.trans h2)
  have h3 := specChainedScanFuel_spec [⟨5,0,0,0,0⟩] 6
    [⟨⟨5,0⟩,⟨5,0⟩,none,none⟩] 0 0 false (by decide)
  have h4 : specChainedScanFuel [⟨5,0,0,0,0⟩] 6
      [⟨⟨5,0⟩,⟨5,0⟩,none,none⟩] 0 0 false =
      some [⟨⟨5,0⟩,⟨5,0⟩,some 0,some 0⟩] := by decide
  have heval2 := Option.some.inj (h3.symm.trans h4)
  refine ⟨heval1, heval2, ?_⟩
  rw [heval1, heval2]
  decide

/-- C4 (amended): in all chained matcher variants an end match records
`end_id = ki`, advances the segment cursor, and leaves `ki` unchanged, so
the matched end candle is reused as the next segment's start — on a
chained fully-present input, consecutive records receive equal
`end_id`/`start_id`.  (The start-match branch differs between variants:
`stroke.draw`/`segment.draw` advance `ki` after recording `start_id`,
while `subtrend.draw`/`center.draw` hold `ki` under a `start_match` flag;
the counterexample refutes the claim's "does not advance ki" for the
stroke variant.) -/
theorem claim_C4_reuse (kdata : List Candle)
    (srecs : List StrokeRec) (crecs : List CenterRec)
    (hmono : StrictCandles kdata)
    (hchain_s : StrokeChain srecs)
    (hasc_s : ∀ r ∈ srecs, r.start_pt.extremum_ts < r.end_pt.extremum_ts)
    (hpres_s : ∀ r ∈ srecs, r.start_pt.extremum_ts ∈ tsList kdata ∧
      r.end_pt.extremum_ts ∈ tsList kdata)
    (hchain_c : CenterChain crecs)
    (hasc_c : ∀ r ∈ crecs, r.start_ts < r.end_ts)
    (hpres_c : ∀ r ∈ crecs, r.start_ts ∈ tsList kdata ∧
      r.end_ts ∈ tsList kdata) :
    (∀ i a b, srecs[i]? = some a → srecs[i + 1]? = some b →
      (strokeScan kdata srecs 0 0)[i]? = some (strokeAnnot kdata a) ∧
      (strokeScan kdata srecs 0 0)[i + 1]? = some (strokeAnnot kdata b) ∧
      (strokeAnnot kdata a).end_id = (strokeAnnot kdata b).start_id) ∧
    (∀ i a b, crecs[i]? = some a → crecs[i + 1]? = some b →
      (centerScan kdata crecs 0 0 false)[i]? = some (centerAnnot kdata a) ∧
      (centerScan kdata crecs 0 0 false)[i + 1]? = some (centerAnnot kdata b) ∧
      (centerAnnot kdata a).end_id = (centerAnnot kdata b).start_id) := by
  have hs := strokeScan_map_annot kdata srecs hmono hchain_s hasc_s hpres_s
  have hc := centerScan_map_annot kdata crecs hmono hchain_c hasc_c hpres_c
  constructor
  · intro i a b ha hb
    refine ⟨?_, ?_, ?_⟩
    · rw [hs, List.getElem?_map, ha, Option.map_some']
    · rw [hs, List.getElem?_map, hb, Option.map_some']
    · have hadj := strokeChain_adj srecs hchain_s i a b ha hb
      simp only [strokeAnnot]
      rw [hadj]
  · intro i a b ha hb
    refine ⟨?_, ?_, ?_⟩
    · rw [hc, List.getElem?_map, ha, Option.map_some']
    · rw [hc, List.getElem?_map, hb, Option.map_some']
    · have hadj := centerChain_adj crecs hchain_c i a b ha hb
      simp only [centerAnnot]
      rw [hadj]

/-- Witness for C4: two chained strokes (0→1), (1→2) and two chained
centers over candles 0,1,2; the first record's `end_id` equals the second
record's `start_id` (candle 1 is reused) in both matcher variants. -/
theorem claim_C4_witness :
    ((strokeScan [⟨0,0,0,0,0⟩, ⟨1,0,0,0,0⟩, ⟨2,0,0,0,0⟩]
        [⟨⟨0,0⟩,⟨1,0⟩,none,none⟩, ⟨⟨1,0⟩,⟨2,0⟩,none,none⟩] 0 0)[0]? =
      some (strokeAnnot [⟨0,0,0,0,0⟩, ⟨1,0,0,0,0⟩, ⟨2,0,0,0,0⟩]
        ⟨⟨0,0⟩,⟨1,0⟩,none,none⟩) ∧
     (strokeScan [⟨0,0,0,0,0⟩, ⟨1,0,0,0,0⟩, ⟨2,0,0,0,0⟩]
        [⟨⟨0,0⟩,⟨1,0⟩,none,none⟩, ⟨⟨1,0⟩,⟨2,0⟩,none,none⟩] 0 0)[1]? =
      some (strokeAnnot [⟨0,0,0,0,0⟩, ⟨1,0,0,0,0⟩, ⟨2,0,0,0,0⟩]
        ⟨⟨1,0⟩,⟨2,0⟩,none,none⟩) ∧
     (strokeAnnot [⟨0,0,0,0,0⟩, ⟨1,0,0,0,0⟩, ⟨2,0,0,0,0⟩]
        ⟨⟨0,0⟩,⟨1,0⟩,none,none⟩).end_id =
      (strokeAnnot [⟨0,0,0,0,0⟩, ⟨1,0,0,0,0⟩, ⟨2,0,0,0,0⟩]
        ⟨⟨1,0⟩,⟨2,0⟩,none,none⟩).start_id) ∧
    ((centerScan [⟨0,0,0,0,0⟩, ⟨1,0,0,0,0⟩, ⟨2,0,0,0,0⟩]
        [⟨0,1,0,0,0,0,0,0,true,none,none⟩, ⟨1,2,0,0,0,0,0,0,true,none,none⟩]
        0 0 false)[0]? =
      some (centerAnnot [⟨0,0,0,0,0⟩, ⟨1,0,0,0,0⟩, ⟨2,0,0,0,0⟩]
        ⟨0,1,0,0,0,0,0,0,true,none,none⟩) ∧
     (centerScan [⟨0,0,0,0,0⟩, ⟨1,0,0,0,0⟩, ⟨2,0,0,0,0⟩]
        [⟨0,1,0,0,0,0,0,0,true,none,none⟩, ⟨1,2,0,0,0,0,0,0,true,none,none⟩]
        0 0 false)[1]? =
      some (centerAnnot [⟨0,0,0,0,0⟩, ⟨1,0,0,0,0⟩, ⟨2,0,0,0,0⟩]
        ⟨1,2,0,0,0,0,0,0,true,none,none⟩) ∧
     (centerAnnot [⟨0,0,0,0,0⟩, ⟨1,0,0,0,0⟩, ⟨2,0,0,0,0⟩]
        ⟨0,1,0,0,0,0,0,0,true,none,none⟩).end_id =
      (centerAnnot [⟨0,0,0,0,0⟩, ⟨1,0,0,0,0⟩, ⟨2,0,0,0,0⟩]
        ⟨1,2,0,0,0,0,0,0,true,none,none⟩).start_id) := by
  have h := claim_C4_reuse [⟨0,0,0,0,0⟩, ⟨1,0,0,0,0⟩, ⟨2,0,0,0,0⟩]
    [⟨⟨0,0⟩,⟨1,0⟩,none,none⟩, ⟨⟨1,0⟩,⟨2,0⟩,none,none⟩]
    [⟨0,1,0,0,0,0,0,0,true,none,none⟩, ⟨1,2,0,0,0,0,0,0,true,none,none⟩]
    (by decide) (by decide) (by decide) (by decide) (by decide) (by decide)
    (by decide)
  exact ⟨h.1 0 _ _ (by decide) (by decide), h.2 0 _ _ (by decide) (by decide)⟩

/-- C5, counterexample: `center.draw` does use the reuse-ki shortcut.  On
candles 10,20,30 with the chained centers (10→20), (20→30), the source
scan holds the candle cursor at the matched end candle (comment "需复用ki"
in `tanglism-center.js`), so the second center's start is matched at the
*same* candle index 1 that ended the first center — whereas the
monotonically advancing no-reuse scan the claim describes (transcribed as
`specCenterScanNoReuse`) passes that candle and leaves the second
center's start unresolved.  The two scans produce different outputs. -/
theorem claim_C5_counterexample :
    centerScan [⟨10,0,0,0,0⟩, ⟨20,0,0,0,0⟩, ⟨30,0,0,0,0⟩]
      [⟨10,20,0,0,0,0,0,0,true,none,none⟩, ⟨20,30,0,0,0,0,0,0,true,none,none⟩]
      0 0 false =
      [⟨10,20,0,0,0,0,0,0,true,some 0,some 1⟩,
       ⟨20,30,0,0,0,0,0,0,true,some 1,some 2⟩] ∧
    specCenterScanNoReuse [⟨10,0,0,0,0⟩, ⟨20,0,0,0,0⟩, ⟨30,0,0,0,0⟩]
      [⟨10,20,0,0,0,0,0,0,true,none,none⟩, ⟨20,30,0,0,0,0,0,0,true,none,none⟩]
      0 0 false =
      [⟨10,20,0,0,0,0,0,0,true,some 0,some 1⟩,
       ⟨20,30,0,0,0,0,0,0,true,none,some 2⟩] ∧
    centerScan [⟨10,0,0,0,0⟩, ⟨20,0,0,0,0⟩, ⟨30,0,0,0,0⟩]
      [⟨10,20,0,0,0,0,0,0,true,none,none⟩, ⟨20,30,0,0,0,0,0,0,true,none,none⟩]
      0 0 false ≠
    specCenterScanNoReuse [⟨10,0,0,0,0⟩, ⟨20,0,0,0,0⟩, ⟨30,0,0,0,0⟩]
      [⟨10,20,0,0,0,0,0,0,true,none,none⟩, ⟨20,30,0,0,0,0,0,0,true,none,none⟩]
      0 0 false := by
  have h1 := centerScanFuel_spec [⟨10,0,0,0,0⟩, ⟨20,0,0,0,0⟩, ⟨30,0,0,0,0⟩] 10
    [⟨10,20,0,0,0,0,0,0,true,none,none⟩, ⟨20,30,0,0,0,0,0,0,true,none,none⟩]
    0 0 false (by decide)
  have h2 : centerScanFuel [⟨10,0,0,0,0⟩, ⟨20,0,0,0,0⟩, ⟨30,0,0,0,0⟩] 10
      [⟨10,20,0,0,0,0,0,0,true,none,none⟩, ⟨20,30,0,0,0,0,0,0,true,none,none⟩]
      0 0 false =
      some [⟨10,20,0,0,0,0,0,0,true,some 0,some 1⟩,
        ⟨20,30,0,0,0,0,0,0,true,some 1,some 2⟩] := by decide
  have heval1 := Option.some.inj (h1.symm.trans h2)
  have h3 := specCenterScanNoReuseFuel_spec
    [⟨10,0,0,0,0⟩, ⟨20,0,0,0,0⟩, ⟨30,0,0,0,0⟩] 10
    [⟨10,20,0,0,0,0,0,0,true,none,none⟩, ⟨20,30,0,0,0,0,0,0,true,none,none⟩]
    0 0 false (by decide)
  have h4 : specCenterScanNoReuseFuel
      [⟨10,0,0,0,0⟩, ⟨20,0,0,0,0⟩, ⟨30,0,0,0,0⟩] 10
      [⟨10,20,0,0,0,0,0,0,true,none,none⟩, ⟨20,30,0,0,0,0,0,0,true,none,none⟩]
      0 0 false =
      some [⟨10,20,0,0,0,0,0,0,true,some 0,some 1⟩,
        ⟨20,30,0,0,0,0,0,0,true,none,some 2⟩] := by decide
  have heval2 := Option.some.inj (h3.symm.trans h4)
  refine ⟨heval1, heval2, ?_⟩
  rw [heval1, heval2]
  decide

/-- C5 (amended): `center.draw` uses the same reuse-ki chained scan as
the sub-trend variant: a `start_match` flag is reset per center, neither
matching branch advances the candle cursor, and after a center's end is
matched the cursor is held at that candle, so the next center's start
matches there — on a chained fully-present input every center is
annotated with its boundary positions and consecutive centers share the
boundary candle index. -/
theorem claim_C5_center_scan (kdata : List Candle) (crecs : List CenterRec)
    (hmono : StrictCandles kdata) (hchain : CenterChain crecs)
    (hasc : ∀ r ∈ crecs, r.start_ts < r.end_ts)
    (hpres : ∀ r ∈ crecs, r.start_ts ∈ tsList kdata ∧ r.end_ts ∈ tsList kdata) :
    centerScan kdata crecs 0 0 false = crecs.map (centerAnnot kdata) ∧
    ∀ i a b, crecs[i]? = some a → crecs[i + 1]? = some b →
      (centerAnnot kdata b).start_id = (centerAnnot kdata a).end_id ∧
      (centerAnnot kdata a).end_id = some (tsIndex kdata a.end_ts) := by
  have hc := centerScan_map_annot kdata crecs hmono hchain hasc hpres
  refine ⟨hc, ?_⟩
  intro i a b ha hb
  have hadj := centerChain_adj crecs hchain i a b ha hb
  constructor
  · simp only [centerAnnot]
    rw [hadj]
  · rfl

/-- Witness for C5: the two chained centers (10→20), (20→30) over candles
10,20,30 are both fully annotated and share candle index 1. -/
theorem claim_C5_witness :
    centerScan [⟨10,0,0,0,0⟩, ⟨20,0,0,0,0⟩, ⟨30,0,0,0,0⟩]
      [⟨10,20,0,0,0,0,0,0,true,none,none⟩, ⟨20,30,0,0,0,0,0,0,true,none,none⟩]
      0 0 false =
      [⟨10,20,0,0,0,0,0,0,true,none,none⟩,
       ⟨20,30,0,0,0,0,0,0,true,none,none⟩].map
        (centerAnnot [⟨10,0,0,0,0⟩, ⟨20,0,0,0,0⟩, ⟨30,0,0,0,0⟩]) ∧
    (centerAnnot [⟨10,0,0,0,0⟩, ⟨20,0,0,0,0⟩, ⟨30,0,0,0,0⟩]
      ⟨20,30,0,0,0,0,0,0,true,none,none⟩).start_id =
    (centerAnnot [⟨10,0,0,0,0⟩, ⟨20,0,0,0,0⟩, ⟨30,0,0,0,0⟩]
      ⟨10,20,0,0,0,0,0,0,true,none,none⟩).end_id := by
  have h := claim_C5_center_scan [⟨10,0,0,0,0⟩, ⟨20,0,0,0,0⟩, ⟨30,0,0,0,0⟩]
    [⟨10,20,0,0,0,0,0,0,true,none,none⟩, ⟨20,30,0,0,0,0,0,0,true,none,none⟩]
    (by decide) (by decide) (by decide) (by decide)
  exact ⟨h.1, (h.2 0 _ _ (by decide) (by decide)).1⟩

/-- C3: after a CandleSeries replacement — the spec-modelled
StalenessTracker dispatcher `markAllOutdated` running every module's
`outdate()` — every overlay dataset's outdated flag becomes true; a
subsequent wholesale replace of one kind's dataset (that module's
`data(input)`, from the sources) clears only that kind's flag, and every
other kind's flag remains true.  Stated for each of the five kinds. -/
theorem claim_C3_staleness (s : OverlayStates)
    (ip : List PartingRec) (isk : List StrokeRec) (isg : List SegmentRec)
    (ist : List SubtrendRec) (ic : List CenterRec) :
    ((markAllOutdated s).parting.outdate = true ∧
     (markAllOutdated s).stroke.outdate = true ∧
     (markAllOutdated s).segment.outdate = true ∧
     (markAllOutdated s).subtrend.outdate = true ∧
     (markAllOutdated s).center.outdate = true) ∧
    (let r := { markAllOutdated s with parting := parting.data ip (markAllOutdated s).parting }
     r.parting.outdate = false ∧ r.stroke.outdate = true ∧ r.segment.outdate = true ∧
     r.subtrend.outdate = true ∧ r.center.outdate = true) ∧
    (let r := { markAllOutdated s with stroke := stroke.data isk (markAllOutdated s).stroke }
     r.stroke.outdate = false ∧ r.parting.outdate = true ∧ r.segment.outdate = true ∧
     r.subtrend.outdate = true ∧ r.center.outdate = true) ∧
    (let r := { markAllOutdated s with segment := segment.data isg (markAllOutdated s).segment }
     r.segment.outdate = false ∧ r.parting.outdate = true ∧ r.stroke.outdate = true ∧
     r.subtrend.outdate = true ∧ r.center.outdate = true) ∧
    (let r := { markAllOutdated s with subtrend := subtrend.data ist (markAllOutdated s).subtrend }
     r.subtrend.outdate = false ∧ r.parting.outdate = true ∧ r.stroke.outdate = true ∧
     r.segment.outdate = true ∧ r.center.outdate = true) ∧
    (let r := { markAllOutdated s with center := center.data ic (markAllOutdated s).center }
     r.center.outdate = false ∧ r.parting.outdate = true ∧ r.stroke.outdate = true ∧
     r.segment.outdate = true ∧ r.subtrend.outdate = true) := by
  simp [markAllOutdated, parting.outdate, stroke.outdate, segment.outdate,
    subtrend.outdate, center.outdate, parting.data, stroke.data, segment.data,
    subtrend.data, center.data]

/-- C7: a full dispatcher draw pass invokes the layer draws in exactly
the fixed source order centers → klines → strokes → segments → sub-trends
→ MACD: every toggle combination yields a sublist of that fixed order,
the all-enabled pass yields exactly the fixed order, and the emitted
shape stream of `tanglismDraw.draw` is always grouped by layer in that
order. -/
theorem claim_C7_draw_order :
    (∀ t : Toggles, (tanglismDraw.drawPassLayers t).Sublist
      [LayerTag.centers, LayerTag.klines, LayerTag.strokes,
       LayerTag.segments, LayerTag.subtrends, LayerTag.macd]) ∧
    tanglismDraw.drawPassLayers ⟨true, true, true, true⟩ =
      [LayerTag.centers, LayerTag.klines, LayerTag.strokes,
       LayerTag.segments, LayerTag.subtrends, LayerTag.macd] ∧
    (∀ (t : Toggles) (ws : WebState) (macdShapes : List Shape),
      ∃ n1 n2 n3 n4 n5 n6,
        ((tanglismDraw.draw t ws macdShapes).2).map Prod.fst =
          List.replicate n1 LayerTag.centers ++
          List.replicate n2 LayerTag.klines ++
          List.replicate n3 LayerTag.strokes ++
          List.replicate n4 LayerTag.segments ++
          List.replicate n5 LayerTag.subtrends ++
          List.replicate n6 LayerTag.macd) := by
  have key : ∀ (tag : LayerTag) (l : List Shape),
      (l.map (fun s => (tag, s))).map Prod.fst = List.replicate l.length tag := by
    intro tag l
    induction l with
    | nil => rfl
    | cons x xs ih => simp [ih, List.replicate_succ]
  refine ⟨?_, rfl, ?_⟩
  · intro t
    obtain ⟨a, b, c, d⟩ := t
    revert a b c d
    decide
  · intro t ws macdShapes
    simp only [tanglismDraw.draw, List.map_append, key]
    exact ⟨_, _, _, _, _, _, rfl⟩

/-- C8: a draw attempt on an overlay dataset whose outdated flag is true
never renders its records (empty shape output for any toggle state); with
the layer enabled, the stroke and sub-trend variants log and return
(silent skip) while the center and segment variants issue an asynchronous
refresh and return (fetch-on-demand); the refresh success handler
re-enters the draw path on the freshly replaced, no-longer-outdated
dataset. -/
theorem claim_C8_stale_draw (kdata : List Candle)
    (ss : StrokeState) (gs : SegmentState) (us : SubtrendState) (cs : CenterState)
    (hss : ss.outdate = true) (hgs : gs.outdate = true)
    (hus : us.outdate = true) (hcs : cs.outdate = true) :
    (∀ en k, (stroke.draw en k kdata ss).shapes = [] ∧
      (segment.draw en k kdata gs).shapes = [] ∧
      (subtrend.draw en k kdata us).shapes = [] ∧
      (center.draw en k kdata cs).shapes = []) ∧
    (∀ k, (stroke.draw true k kdata ss).effect = DrawEffect.logSkip ∧
      (subtrend.draw true k kdata us).effect = DrawEffect.logSkip ∧
      (segment.draw true k kdata gs).effect = DrawEffect.fetch ∧
      (center.draw true k kdata cs).effect = DrawEffect.fetch) ∧
    (∀ resp en k, center.ajax_success resp en k kdata cs =
      center.draw en k kdata (center.data resp cs) ∧
      (center.data resp cs).outdate = false) ∧
    (∀ resp en k, segment.ajax_success resp en k kdata gs =
      segment.draw en k kdata (segment.data resp gs) ∧
      (segment.data resp gs).outdate = false) := by
  refine ⟨?_, ?_, ?_, ?_⟩
  · intro en k
    cases en <;>
      simp [stroke.draw, segment.draw, subtrend.draw, center.draw,
        hss, hgs, hus, hcs]
  · intro k
    simp [stroke.draw, segment.draw, subtrend.draw, center.draw,
      hss, hgs, hus, hcs]
  · intro resp en k
    exact ⟨rfl, rfl⟩
  · intro resp en k
    exact ⟨rfl, rfl⟩

/-- Witness for C8 at the initial (all outdated, empty) module states. -/
theorem claim_C8_witness :
    (⟨[], true⟩ : StrokeState).outdate = true ∧
    ((∀ en k, (stroke.draw en k [] ⟨[], true⟩).shapes = [] ∧
      (segment.draw en k [] ⟨[], true⟩).shapes = [] ∧
      (subtrend.draw en k [] ⟨[], true⟩).shapes = [] ∧
      (center.draw en k [] ⟨[], true⟩).shapes = []) ∧
    (∀ k, (stroke.draw true k [] ⟨[], true⟩).effect = DrawEffect.logSkip ∧
      (subtrend.draw true k [] ⟨[], true⟩).effect = DrawEffect.logSkip ∧
      (segment.draw true k [] ⟨[], true⟩).effect = DrawEffect.fetch ∧
      (center.draw true k [] ⟨[], true⟩).effect = DrawEffect.fetch) ∧
    (∀ resp en k, center.ajax_success resp en k [] ⟨[], true⟩ =
      center.draw en k [] (center.data resp ⟨[], true⟩) ∧
      (center.data resp ⟨[], true⟩).outdate = false) ∧
    (∀ resp en k, segment.ajax_success resp en k [] ⟨[], true⟩ =
      segment.draw en k [] (segment.data resp ⟨[], true⟩) ∧
      (segment.data resp ⟨[], true⟩).outdate = false)) :=
  ⟨rfl, claim_C8_stale_draw [] ⟨[], true⟩ ⟨[], true⟩ ⟨[], true⟩ ⟨[], true⟩
    rfl rfl rfl rfl⟩

/-- C9, counterexample to "the dataset is cleared (emptied)": the center
module's ajax error handler leaves a non-empty record store untouched
(its body is only `console.log` and `clear_table()`). -/
theorem claim_C9_counterexample :
    (center.ajax_error ⟨[⟨10,20,0,0,0,0,0,0,true,none,none⟩], true⟩).1.data =
      [⟨10,20,0,0,0,0,0,0,true,none,none⟩] ∧
    (center.ajax_error ⟨[⟨10,20,0,0,0,0,0,0,true,none,none⟩], true⟩).1.data ≠
      [] :=
  ⟨rfl, by decide⟩

/-- C9 (amended): on network failure of an overlay fetch the handler only
logs a diagnostic and removes the module's table; the stored records and
the staleness flag are left unchanged (not emptied), and the failure is
terminal for the request — no retry request is issued and no user-facing
error state is raised.  Stated for the center, segment, and parting
handlers cited by the claim. -/
theorem claim_C9_error_terminal (cs : CenterState) (gs : SegmentState)
    (ps : PartingState) :
    ((center.ajax_error cs).1 = cs ∧
     (center.ajax_error cs).2 = [UiAction.log, UiAction.clearTable] ∧
     UiAction.request ∉ (center.ajax_error cs).2) ∧
    ((segment.ajax_error gs).1 = gs ∧
     (segment.ajax_error gs).2 = [UiAction.log, UiAction.clearTable] ∧
     UiAction.request ∉ (segment.ajax_error gs).2) ∧
    ((parting.ajax_error ps).1 = ps ∧
     (parting.ajax_error ps).2 = [UiAction.log, UiAction.clearTable] ∧
     UiAction.request ∉ (parting.ajax_error ps).2) := by
  have hmem : UiAction.request ∉ [UiAction.log, UiAction.clearTable] := by decide
  exact ⟨⟨rfl, rfl, hmem⟩, ⟨rfl, rfl, hmem⟩, ⟨rfl, rfl, hmem⟩⟩

/-- C10: every two-cursor matcher scan loop terminates after finitely
many iterations — replaying each loop with an explicit iteration budget
computed from the cursor bounds (records and candles remaining, plus one
for the flag flip in the flag variants) always completes and returns the
loop's result. -/
theorem claim_C10_termination (kdata : List Candle) :
    (∀ (recs : List StrokeRec) (si ki : Nat),
      strokeScanFuel kdata (recs.length - si + (kdata.length - ki) + 1)
        recs si ki = some (strokeScan kdata recs si ki)) ∧
    (∀ (recs : List SubtrendRec) (si ki : Nat) (sm : Bool),
      subtrendScanFuel kdata
        (2 * (recs.length - si) + (kdata.length - ki) + cond sm 0 1 + 1)
        recs si ki sm = some (subtrendScan kdata recs si ki sm)) ∧
    (∀ (recs : List CenterRec) (ci ki : Nat) (sm : Bool),
      centerScanFuel kdata
        (2 * (recs.length - ci) + (kdata.length - ki) + cond sm 0 1 + 1)
        recs ci ki sm = some (centerScan kdata recs ci ki sm)) :=
  ⟨fun recs si ki => strokeScanFuel_spec kdata _ recs si ki (by omega),
   fun recs si ki sm => subtrendScanFuel_spec kdata _ recs si ki sm (by omega),
   fun recs ci ki sm => centerScanFuel_spec kdata _ recs ci ki sm (by omega)⟩

/-- C2, evaluation at the failing input: the matcher's `start_id`/`end_id`
annotations are written onto the stored records and are never cleared, so
they *do* survive a CandleSeries replacement.  A stroke (10→30) drawn
against candles 10,20,30 is annotated `start_id = 0`, `end_id = 2` and
drawn; a websocket `Data` message carrying only a `KLines` payload then
replaces the candles with 40,50 while leaving the stroke module's records
and its `outdate = false` flag untouched; the next draw re-runs the
matcher against the new candles, matches nothing (neither boundary
timestamp occurs in them), finds the stale annotations still present,
and emits a shape positioned by the ids computed against the previous
candle sequence — contradicting the claim that no subsequent draw can do
so. -/
theorem claim_C2_stale_annotation :
    (stroke.draw true true [⟨10,0,0,0,0⟩, ⟨20,0,0,0,0⟩, ⟨30,0,0,0,0⟩]
      (stroke.data [⟨⟨10,0⟩,⟨30,0⟩,none,none⟩] ⟨[], true⟩)).shapes =
      [⟨0, 2⟩] ∧
    (stroke.draw true true [⟨10,0,0,0,0⟩, ⟨20,0,0,0,0⟩, ⟨30,0,0,0,0⟩]
      (stroke.data [⟨⟨10,0⟩,⟨30,0⟩,none,none⟩] ⟨[], true⟩)).state =
      ⟨[⟨⟨10,0⟩,⟨30,0⟩,some 0,some 2⟩], false⟩ ∧
    tanglismDraw.prepare_data [Payload.klines [⟨40,0,0,0,0⟩, ⟨50,0,0,0,0⟩]]
      ⟨[⟨10,0,0,0,0⟩, ⟨20,0,0,0,0⟩, ⟨30,0,0,0,0⟩],
       ⟨[⟨⟨10,0⟩,⟨30,0⟩,some 0,some 2⟩], false⟩, ⟨[], true⟩, ⟨[], true⟩, ⟨[], true⟩⟩ =
      ⟨[⟨40,0,0,0,0⟩, ⟨50,0,0,0,0⟩],
       ⟨[⟨⟨10,0⟩,⟨30,0⟩,some 0,some 2⟩], false⟩, ⟨[], true⟩, ⟨[], true⟩, ⟨[], true⟩⟩ ∧
    (∀ c ∈ ([⟨40,0,0,0,0⟩, ⟨50,0,0,0,0⟩] : List Candle),
      c.ts ≠ 10 ∧ c.ts ≠ 30) ∧
    (stroke.draw true true [⟨40,0,0,0,0⟩, ⟨50,0,0,0,0⟩]
      ⟨[⟨⟨10,0⟩,⟨30,0⟩,some 0,some 2⟩], false⟩).shapes = [⟨0, 2⟩] := by
  have h1 := strokeScanFuel_spec [⟨10,0,0,0,0⟩, ⟨20,0,0,0,0⟩, ⟨30,0,0,0,0⟩] 10
    [⟨⟨10,0⟩,⟨30,0⟩,none,none⟩] 0 0 (by decide)
  have h2 : strokeScanFuel [⟨10,0,0,0,0⟩, ⟨20,0,0,0,0⟩, ⟨30,0,0,0,0⟩] 10
      [⟨⟨10,0⟩,⟨30,0⟩,none,none⟩] 0 0 =
      some [⟨⟨10,0⟩,⟨30,0⟩,some 0,some 2⟩] := by decide
  have hA := Option.some.inj (h1.symm.trans h2)
  have h3 := strokeScanFuel_spec [⟨40,0,0,0,0⟩, ⟨50,0,0,0,0⟩] 10
    [⟨⟨10,0⟩,⟨30,0⟩,some 0,some 2⟩] 0 0 (by decide)
  have h4 : strokeScanFuel [⟨40,0,0,0,0⟩, ⟨50,0,0,0,0⟩] 10
      [⟨⟨10,0⟩,⟨30,0⟩,some 0,some 2⟩] 0 0 =
      some [⟨⟨10,0⟩,⟨30,0⟩,some 0,some 2⟩] := by decide
  have hB := Option.some.inj (h3.symm.trans h4)
  refine ⟨?_, ?_, by decide, by decide, ?_⟩
  · simp [stroke.draw, stroke.data, hA]
  · simp [stroke.draw, stroke.data, hA]
  · simp [stroke.draw, hB]
